import Mathlib

/-!
# Governance metadata decoding (`x/gov/types/metadata.go`)

The two functions of the source file, `UnmarshalProposalMetadata` and
`UnmarshalVoteMetadata`, call Go's `json.Unmarshal` and then check three
fields.  The development has three layers:

* the scanner of Go's `encoding/json` (`scanner.go`), transcribed state by
  state, which decides whether a text is valid JSON and produces the parser's
  error text;
* the decoder of `encoding/json` (`decode.go`) for the two struct shapes of the
  source file: field lookup by name with case folding, `null` handling, type
  mismatches recorded as `UnmarshalTypeError`, slices;
* the two functions of `metadata.go`.

Input texts are Lean strings, that is sequences of Unicode code points: the
input is taken to be well-formed UTF-8, as the module receives it.
-/

namespace MarsHub

/-! ## JSON values -/

/-- A JSON value as the text denotes it: object members are kept in the order
of the text, duplicates included; strings and keys are unquoted; a number
keeps its literal. -/
inductive JValue where
  | null
  | bool (b : Bool)
  | num (lit : String)
  | str (s : String)
  | arr (elems : List JValue)
  | obj (members : List (String × JValue))

/-! ## The scanner of `encoding/json` (`scanner.go`) -/

/-- The scan opcodes returned by the scanner's step functions. -/
inductive ScanOp where
  | scanContinue
  | scanBeginLiteral
  | scanBeginObject
  | scanObjectKey
  | scanObjectValue
  | scanEndObject
  | scanBeginArray
  | scanArrayValue
  | scanEndArray
  | scanSkipSpace
  | scanEnd
  | scanError
  deriving DecidableEq, Repr

/-- The entries of the scanner's `parseState` stack. -/
inductive ParseState where
  | parseObjectKey
  | parseObjectValue
  | parseArrayValue
  deriving DecidableEq, Repr

/-- The scanner's step functions, as values of its `step` field. -/
inductive StepFn where
  | stateBeginValueOrEmpty
  | stateBeginValue
  | stateBeginStringOrEmpty
  | stateBeginString
  | stateEndValue
  | stateEndTop
  | stateInString
  | stateInStringEsc
  | stateInStringEscU
  | stateInStringEscU1
  | stateInStringEscU12
  | stateInStringEscU123
  | stateNeg
  | state1
  | state0
  | stateDot
  | stateDot0
  | stateE
  | stateESign
  | stateE0
  | stateT
  | stateTr
  | stateTru
  | stateF
  | stateFa
  | stateFal
  | stateFals
  | stateN
  | stateNu
  | stateNul
  | stateError
  deriving DecidableEq, Repr

/-- The scanner state.  `parseState` has its top at the head of the list;
`err` holds the message of the `SyntaxError` (its byte offset is not part of
the message and is left out). -/
structure Scanner where
  step : StepFn
  endTop : Bool
  parseState : List ParseState
  err : Option String
  deriving DecidableEq, Repr

/-- The limit on the depth of nesting. -/
def maxNestingDepth : Nat := 10000

/-- The scanner after `reset`. -/
def Scanner.reset : Scanner :=
  { step := StepFn.stateBeginValue, endTop := false, parseState := [], err := none }

/-- The hexadecimal digits used by `strconv.Quote`. -/
def lowerhex (n : Nat) : Char :=
  if n < 10 then Char.ofNat (48 + n) else Char.ofNat (87 + n)

/-- The function `strconv.IsPrint` on the runes below U+0100. -/
def isPrintLatin1 (r : Nat) : Bool :=
  if 0x20 ≤ r ∧ r < 0x7F then true
  else if 0xA1 ≤ r ∧ r ≤ 0xFF then r != 0xAD
  else false

/-- The body of `strconv.Quote(string(c))` between its quotation marks, for a
byte `c` other than the double quote. -/
def quoteBody (c : Nat) : String :=
  if c = 92 then "\\\\"
  else if isPrintLatin1 c then String.singleton (Char.ofNat c)
  else if c = 7 then "\\a"
  else if c = 8 then "\\b"
  else if c = 12 then "\\f"
  else if c = 10 then "\\n"
  else if c = 13 then "\\r"
  else if c = 9 then "\\t"
  else if c = 11 then "\\v"
  else if c < 0x20 ∨ c = 0x7F then
    String.mk [Char.ofNat 92, Char.ofNat 120, lowerhex (c / 16), lowerhex (c % 16)]
  else
    String.mk [Char.ofNat 92, Char.ofNat 117, lowerhex 0, lowerhex 0,
      lowerhex (c / 16), lowerhex (c % 16)]

/-- The apostrophe as a string. -/
def apostrophe : String := String.singleton (Char.ofNat 39)

/-- The function `quoteChar` of the scanner: the byte inside single quotes. -/
def quoteChar (c : Nat) : String :=
  if c = 39 then apostrophe ++ "\\" ++ apostrophe ++ apostrophe
  else if c = 34 then apostrophe ++ "\"" ++ apostrophe
  else apostrophe ++ quoteBody c ++ apostrophe

/-- The method `error` of the scanner: the scanner stops with a message naming
the offending byte and the context. -/
def Scanner.error (s : Scanner) (c : Nat) (context : String) : Scanner × ScanOp :=
  ({ s with step := StepFn.stateError,
            err := some ("invalid character " ++ quoteChar c ++ " " ++ context) },
   ScanOp.scanError)

/-- The method `pushParseState`: the nesting limit is checked after the push. -/
def Scanner.pushParseState (s : Scanner) (c : Nat) (newParseState : ParseState)
    (successState : ScanOp) : Scanner × ScanOp :=
  let s1 := { s with parseState := newParseState :: s.parseState }
  if s1.parseState.length ≤ maxNestingDepth then (s1, successState)
  else s1.error c "exceeded max depth"

/-- The method `popParseState`. -/
def Scanner.popParseState (s : Scanner) : Scanner :=
  let rest := s.parseState.tail
  if rest.length = 0 then { s with parseState := rest, step := StepFn.stateEndTop, endTop := true }
  else { s with parseState := rest, step := StepFn.stateEndValue }

/-- The function `isSpace`. -/
def isSpace (c : Nat) : Bool :=
  decide (c ≤ 32) && (c == 32 || c == 9 || c == 13 || c == 10)

/-- Whether the byte is a decimal digit. -/
def isDigit (c : Nat) : Bool := decide (48 ≤ c) && decide (c ≤ 57)

/-- Whether the byte is a hexadecimal digit. -/
def isHex (c : Nat) : Bool :=
  isDigit c || (decide (97 ≤ c) && decide (c ≤ 102)) || (decide (65 ≤ c) && decide (c ≤ 70))

/-- The step `stateEndTop`: a byte other than a space after the top-level
value records an error, and the opcode is `scanEnd` either way. -/
def stateEndTop (s : Scanner) (c : Nat) : Scanner × ScanOp :=
  if !isSpace c then ((s.error c "after top-level value").1, ScanOp.scanEnd)
  else (s, ScanOp.scanEnd)

/-- The step `stateEndValue`. -/
def stateEndValue (s : Scanner) (c : Nat) : Scanner × ScanOp :=
  match s.parseState with
  | [] => stateEndTop { s with step := StepFn.stateEndTop, endTop := true } c
  | ps :: rest =>
    if isSpace c then ({ s with step := StepFn.stateEndValue }, ScanOp.scanSkipSpace)
    else
      match ps with
      | ParseState.parseObjectKey =>
        if c = 58 then
          ({ s with parseState := ParseState.parseObjectValue :: rest,
                    step := StepFn.stateBeginValue }, ScanOp.scanObjectKey)
        else s.error c "after object key"
      | ParseState.parseObjectValue =>
        if c = 44 then
          ({ s with parseState := ParseState.parseObjectKey :: rest,
                    step := StepFn.stateBeginString }, ScanOp.scanObjectValue)
        else if c = 125 then (s.popParseState, ScanOp.scanEndObject)
        else s.error c "after object key:value pair"
      | ParseState.parseArrayValue =>
        if c = 44 then ({ s with step := StepFn.stateBeginValue }, ScanOp.scanArrayValue)
        else if c = 93 then (s.popParseState, ScanOp.scanEndArray)
        else s.error c "after array element"

/-- The step `stateBeginValue`. -/
def stateBeginValue (s : Scanner) (c : Nat) : Scanner × ScanOp :=
  if isSpace c then (s, ScanOp.scanSkipSpace)
  else if c = 123 then
    { s with step := StepFn.stateBeginStringOrEmpty }.pushParseState c
      ParseState.parseObjectKey ScanOp.scanBeginObject
  else if c = 91 then
    { s with step := StepFn.stateBeginValueOrEmpty }.pushParseState c
      ParseState.parseArrayValue ScanOp.scanBeginArray
  else if c = 34 then ({ s with step := StepFn.stateInString }, ScanOp.scanBeginLiteral)
  else if c = 45 then ({ s with step := StepFn.stateNeg }, ScanOp.scanBeginLiteral)
  else if c = 48 then ({ s with step := StepFn.state0 }, ScanOp.scanBeginLiteral)
  else if c = 116 then ({ s with step := StepFn.stateT }, ScanOp.scanBeginLiteral)
  else if c = 102 then ({ s with step := StepFn.stateF }, ScanOp.scanBeginLiteral)
  else if c = 110 then ({ s with step := StepFn.stateN }, ScanOp.scanBeginLiteral)
  else if 49 ≤ c ∧ c ≤ 57 then ({ s with step := StepFn.state1 }, ScanOp.scanBeginLiteral)
  else s.error c "looking for beginning of value"

/-- The step `stateBeginValueOrEmpty`. -/
def stateBeginValueOrEmpty (s : Scanner) (c : Nat) : Scanner × ScanOp :=
  if isSpace c then (s, ScanOp.scanSkipSpace)
  else if c = 93 then stateEndValue s c
  else stateBeginValue s c

/-- The step `stateBeginString`. -/
def stateBeginString (s : Scanner) (c : Nat) : Scanner × ScanOp :=
  if isSpace c then (s, ScanOp.scanSkipSpace)
  else if c = 34 then ({ s with step := StepFn.stateInString }, ScanOp.scanBeginLiteral)
  else s.error c "looking for beginning of object key string"

/-- The step `stateBeginStringOrEmpty`: on a closing brace the top of the
parse stack becomes `parseObjectValue` before `stateEndValue` runs. -/
def stateBeginStringOrEmpty (s : Scanner) (c : Nat) : Scanner × ScanOp :=
  if isSpace c then (s, ScanOp.scanSkipSpace)
  else if c = 125 then
    stateEndValue { s with parseState := ParseState.parseObjectValue :: s.parseState.tail } c
  else stateBeginString s c

/-- The step `stateInString`. -/
def stateInString (s : Scanner) (c : Nat) : Scanner × ScanOp :=
  if c = 34 then ({ s with step := StepFn.stateEndValue }, ScanOp.scanContinue)
  else if c = 92 then ({ s with step := StepFn.stateInStringEsc }, ScanOp.scanContinue)
  else if c < 0x20 then s.error c "in string literal"
  else (s, ScanOp.scanContinue)

/-- The step `stateInStringEsc`. -/
def stateInStringEsc (s : Scanner) (c : Nat) : Scanner × ScanOp :=
  if c = 98 ∨ c = 102 ∨ c = 110 ∨ c = 114 ∨ c = 116 ∨ c = 92 ∨ c = 47 ∨ c = 34 then
    ({ s with step := StepFn.stateInString }, ScanOp.scanContinue)
  else if c = 117 then ({ s with step := StepFn.stateInStringEscU }, ScanOp.scanContinue)
  else s.error c "in string escape code"

/-- The steps `stateInStringEscU`, `...U1`, `...U12`, `...U123`: one
hexadecimal digit each, then the state `next`. -/
def stateInStringEscHex (next : StepFn) (s : Scanner) (c : Nat) : Scanner × ScanOp :=
  if isHex c then ({ s with step := next }, ScanOp.scanContinue)
  else s.error c "in \\u hexadecimal character escape"

/-- The step `state0`. -/
def state0 (s : Scanner) (c : Nat) : Scanner × ScanOp :=
  if c = 46 then ({ s with step := StepFn.stateDot }, ScanOp.scanContinue)
  else if c = 101 ∨ c = 69 then ({ s with step := StepFn.stateE }, ScanOp.scanContinue)
  else stateEndValue s c

/-- The step `state1`. -/
def state1 (s : Scanner) (c : Nat) : Scanner × ScanOp :=
  if isDigit c then ({ s with step := StepFn.state1 }, ScanOp.scanContinue)
  else state0 s c

/-- The step `stateNeg`. -/
def stateNeg (s : Scanner) (c : Nat) : Scanner × ScanOp :=
  if c = 48 then ({ s with step := StepFn.state0 }, ScanOp.scanContinue)
  else if 49 ≤ c ∧ c ≤ 57 then ({ s with step := StepFn.state1 }, ScanOp.scanContinue)
  else s.error c "in numeric literal"

/-- The step `stateDot`. -/
def stateDot (s : Scanner) (c : Nat) : Scanner × ScanOp :=
  if isDigit c then ({ s with step := StepFn.stateDot0 }, ScanOp.scanContinue)
  else s.error c "after decimal point in numeric literal"

/-- The step `stateDot0`. -/
def stateDot0 (s : Scanner) (c : Nat) : Scanner × ScanOp :=
  if isDigit c then (s, ScanOp.scanContinue)
  else if c = 101 ∨ c = 69 then ({ s with step := StepFn.stateE }, ScanOp.scanContinue)
  else stateEndValue s c

/-- The step `stateESign`. -/
def stateESign (s : Scanner) (c : Nat) : Scanner × ScanOp :=
  if isDigit c then ({ s with step := StepFn.stateE0 }, ScanOp.scanContinue)
  else s.error c "in exponent of numeric literal"

/-- The step `stateE`. -/
def stateE (s : Scanner) (c : Nat) : Scanner × ScanOp :=
  if c = 43 ∨ c = 45 then ({ s with step := StepFn.stateESign }, ScanOp.scanContinue)
  else stateESign s c

/-- The step `stateE0`. -/
def stateE0 (s : Scanner) (c : Nat) : Scanner × ScanOp :=
  if isDigit c then (s, ScanOp.scanContinue)
  else stateEndValue s c

/-- The steps inside the literals `true`, `false` and `null`: the byte
`expect` leads to the state `next`; anything else is an error naming the
literal and the expected letter. -/
def stateLiteral (expect : Nat) (next : StepFn) (name : String) (s : Scanner) (c : Nat) :
    Scanner × ScanOp :=
  if c = expect then ({ s with step := next }, ScanOp.scanContinue)
  else s.error c ("in literal " ++ name ++ " (expecting " ++ apostrophe ++
    String.singleton (Char.ofNat expect) ++ apostrophe ++ ")")

/-- The call `s.step(s, c)`. -/
def Scanner.run (s : Scanner) (c : Nat) : Scanner × ScanOp :=
  match s.step with
  | StepFn.stateBeginValueOrEmpty => stateBeginValueOrEmpty s c
  | StepFn.stateBeginValue => stateBeginValue s c
  | StepFn.stateBeginStringOrEmpty => stateBeginStringOrEmpty s c
  | StepFn.stateBeginString => stateBeginString s c
  | StepFn.stateEndValue => stateEndValue s c
  | StepFn.stateEndTop => stateEndTop s c
  | StepFn.stateInString => stateInString s c
  | StepFn.stateInStringEsc => stateInStringEsc s c
  | StepFn.stateInStringEscU => stateInStringEscHex StepFn.stateInStringEscU1 s c
  | StepFn.stateInStringEscU1 => stateInStringEscHex StepFn.stateInStringEscU12 s c
  | StepFn.stateInStringEscU12 => stateInStringEscHex StepFn.stateInStringEscU123 s c
  | StepFn.stateInStringEscU123 => stateInStringEscHex StepFn.stateInString s c
  | StepFn.stateNeg => stateNeg s c
  | StepFn.state1 => state1 s c
  | StepFn.state0 => state0 s c
  | StepFn.stateDot => stateDot s c
  | StepFn.stateDot0 => stateDot0 s c
  | StepFn.stateE => stateE s c
  | StepFn.stateESign => stateESign s c
  | StepFn.stateE0 => stateE0 s c
  | StepFn.stateT => stateLiteral 114 StepFn.stateTr "true" s c
  | StepFn.stateTr => stateLiteral 117 StepFn.stateTru "true" s c
  | StepFn.stateTru => stateLiteral 101 StepFn.stateEndValue "true" s c
  | StepFn.stateF => stateLiteral 97 StepFn.stateFa "false" s c
  | StepFn.stateFa => stateLiteral 108 StepFn.stateFal "false" s c
  | StepFn.stateFal => stateLiteral 115 StepFn.stateFals "false" s c
  | StepFn.stateFals => stateLiteral 101 StepFn.stateEndValue "false" s c
  | StepFn.stateN => stateLiteral 117 StepFn.stateNu "null" s c
  | StepFn.stateNu => stateLiteral 108 StepFn.stateNul "null" s c
  | StepFn.stateNul => stateLiteral 108 StepFn.stateEndValue "null" s c
  | StepFn.stateError => (s, ScanOp.scanError)

/-- The method `eof`: the scanner is fed one space; when that does not end the
top-level value and records no error of its own, the input is incomplete. -/
def Scanner.eof (s : Scanner) : Scanner × ScanOp :=
  if s.err.isSome then (s, ScanOp.scanError)
  else if s.endTop then (s, ScanOp.scanEnd)
  else
    let s1 := (s.run 32).1
    if s1.endTop then (s1, ScanOp.scanEnd)
    else if s1.err.isNone then
      ({ s1 with err := some "unexpected end of JSON input" }, ScanOp.scanError)
    else (s1, ScanOp.scanError)

/-- The first byte of the UTF-8 encoding of a code point. -/
def leadByte (c : Char) : Nat :=
  let n := c.toNat
  if n < 0x80 then n
  else if n < 0x800 then 0xC0 + n / 64
  else if n < 0x10000 then 0xE0 + n / 4096
  else 0xF0 + n / 262144

/-! ## Unquoting string literals (`unquoteBytes` in `decode.go`) -/

/-- The value of a hexadecimal digit. -/
def hexVal (c : Char) : Option Nat :=
  let n := c.toNat
  if 48 ≤ n ∧ n ≤ 57 then some (n - 48)
  else if 97 ≤ n ∧ n ≤ 102 then some (n - 97 + 10)
  else if 65 ≤ n ∧ n ≤ 70 then some (n - 65 + 10)
  else none

/-- The number written by four hexadecimal digits. -/
def hex4 (a b c d : Char) : Option Nat :=
  match hexVal a, hexVal b, hexVal c, hexVal d with
  | some x, some y, some z, some w => some (((x * 16 + y) * 16 + z) * 16 + w)
  | _, _, _, _ => none

/-- The replacement character U+FFFD. -/
def replacementChar : Char := Char.ofNat 0xFFFD

/-- The function `utf16.IsSurrogate`. -/
def isSurrogate (r : Nat) : Bool := decide (0xD800 ≤ r) && decide (r < 0xE000)

/-- The function `utf16.DecodeRune`, with no result where Go returns U+FFFD. -/
def decodeSurrogates (r1 r2 : Nat) : Option Nat :=
  if 0xD800 ≤ r1 ∧ r1 < 0xDC00 ∧ 0xDC00 ≤ r2 ∧ r2 < 0xE000 then
    some ((r1 - 0xD800) * 1024 + (r2 - 0xDC00) + 0x10000)
  else none

/-- The character an escape letter other than `u` stands for. -/
def escapeChar (e : Char) : Option Char :=
  let n := e.toNat
  if n = 34 ∨ n = 92 ∨ n = 47 ∨ n = 39 then some e
  else if n = 98 then some (Char.ofNat 8)
  else if n = 102 then some (Char.ofNat 12)
  else if n = 110 then some (Char.ofNat 10)
  else if n = 114 then some (Char.ofNat 13)
  else if n = 116 then some (Char.ofNat 9)
  else none

/-- The escape that follows a backslash: the code point it stands for and the
number of code points it takes after the backslash.  A `\u` escape of a high
surrogate followed by the escape of a low surrogate is one code point; any
other surrogate escape is U+FFFD. -/
def unescape (rest : List Char) : Option (Char × Nat) :=
  match rest with
  | [] => none
  | e :: rest1 =>
    if e.toNat = 117 then
      match rest1 with
      | h1 :: h2 :: h3 :: h4 :: rest2 =>
        match hex4 h1 h2 h3 h4 with
        | none => none
        | some rr =>
          if isSurrogate rr then
            match rest2 with
            | b :: u :: g1 :: g2 :: g3 :: g4 :: _ =>
              match (if b.toNat = 92 ∧ u.toNat = 117 then hex4 g1 g2 g3 g4 else none) with
              | some rr1 =>
                match decodeSurrogates rr rr1 with
                | some dec => some (Char.ofNat dec, 11)
                | none => some (replacementChar, 5)
              | none => some (replacementChar, 5)
            | _ => some (replacementChar, 5)
          else some (Char.ofNat rr, 5)
      | _ => none
    else
      match escapeChar e with
      | some x => some (x, 1)
      | none => none

/-- The loop of `unquoteBytes` over the text between the quotation marks;
`skip` counts the code points of an escape still to pass over.  There is no
result on a malformed literal, which the scanner has excluded before. -/
def unquoteChars : Nat → List Char → Option (List Char)
  | _, [] => some []
  | skip + 1, _ :: rest => unquoteChars skip rest
  | 0, c :: rest =>
    if c.toNat = 92 then
      match unescape rest with
      | some (x, n) => (unquoteChars n rest).map (fun t => x :: t)
      | none => none
    else if c.toNat = 34 ∨ c.toNat < 32 then none
    else (unquoteChars 0 rest).map (fun t => c :: t)

/-- The function `unquote` on a whole literal, quotation marks included. -/
def unquote (lit : List Char) : Option String :=
  match lit with
  | [] => none
  | q :: rest =>
    if q.toNat = 34 ∧ rest.getLast? = some q then
      (unquoteChars 0 rest.dropLast).map String.mk
    else none

/-! ## From the scanner's opcodes to a value -/

/-- The value of a literal, chosen by its first byte as `literalStore` does. -/
def literalValue (lit : List Char) : JValue :=
  match lit with
  | [] => JValue.null
  | c :: _ =>
    if c.toNat = 110 then JValue.null
    else if c.toNat = 116 then JValue.bool true
    else if c.toNat = 102 then JValue.bool false
    else if c.toNat = 34 then JValue.str ((unquote lit).getD "")
    else JValue.num (String.mk lit)

/-- An array or object under construction; elements and members are kept in
reverse, and an object remembers the key whose value is being read. -/
inductive Frame where
  | arr (elems : List JValue)
  | obj (members : List (String × JValue)) (key : Option String)

/-- The reader that follows the scanner's opcodes: the literal being read (in
reverse), the value just completed, and the containers still open. -/
structure Builder where
  lit : Option (List Char)
  done : Option JValue
  stack : List Frame

/-- The reader before the first byte. -/
def Builder.init : Builder := { lit := none, done := none, stack := [] }

/-- A literal ends at the first opcode that is not `scanContinue`. -/
def Builder.closeLiteral (b : Builder) : Builder :=
  match b.lit with
  | some l => { b with lit := none, done := some (literalValue l.reverse) }
  | none => b

/-- The completed value becomes an element or a member of the open container. -/
def Builder.attach (b : Builder) : Builder :=
  match b.done, b.stack with
  | some v, Frame.arr es :: st => { b with done := none, stack := Frame.arr (v :: es) :: st }
  | some v, Frame.obj ms (some k) :: st =>
    { b with done := none, stack := Frame.obj ((k, v) :: ms) none :: st }
  | _, _ => b

/-- One opcode of the scanner, with the code point it was returned for. -/
def Builder.feed (b : Builder) (op : ScanOp) (c : Char) : Builder :=
  match op with
  | ScanOp.scanContinue =>
    match b.lit with
    | some l => { b with lit := some (c :: l) }
    | none => b
  | ScanOp.scanBeginLiteral => { b with lit := some [c] }
  | ScanOp.scanBeginObject => { b with stack := Frame.obj [] none :: b.stack }
  | ScanOp.scanBeginArray => { b with stack := Frame.arr [] :: b.stack }
  | ScanOp.scanObjectKey =>
    let b1 := b.closeLiteral
    match b1.done, b1.stack with
    | some (JValue.str k), Frame.obj ms _ :: st =>
      { b1 with done := none, stack := Frame.obj ms (some k) :: st }
    | _, _ => b1
  | ScanOp.scanObjectValue => b.closeLiteral.attach
  | ScanOp.scanArrayValue => b.closeLiteral.attach
  | ScanOp.scanEndObject =>
    let b1 := b.closeLiteral.attach
    match b1.stack with
    | Frame.obj ms _ :: st => { b1 with done := some (JValue.obj ms.reverse), stack := st }
    | _ => b1
  | ScanOp.scanEndArray =>
    let b1 := b.closeLiteral.attach
    match b1.stack with
    | Frame.arr es :: st => { b1 with done := some (JValue.arr es.reverse), stack := st }
    | _ => b1
  | ScanOp.scanSkipSpace => b.closeLiteral
  | ScanOp.scanEnd => b.closeLiteral
  | ScanOp.scanError => b

/-- One code point of the input.  The scanner works on bytes: a code point
above U+007F is given to it as the first byte of its UTF-8 encoding; the
bytes that follow change nothing, since `stateInString` continues on them
and every other state has stopped with an error on the first. -/
def feedChar (st : Scanner × Builder) (c : Char) : Scanner × Builder :=
  let r := st.1.run (leadByte c)
  (r.1, st.2.feed r.2 c)

/-- The scanner and the reader after the whole input. -/
def scanAll (data : List Char) : Scanner × Builder :=
  data.foldl feedChar (Scanner.reset, Builder.init)

/-- The function `checkValid`: the error text of the scanner, if the input is
not valid JSON. -/
def checkValid (data : List Char) : Option String :=
  (scanAll data).1.eof.1.err

/-- The value a valid JSON text denotes, or the scanner's error text. -/
def parseJSON (data : List Char) : Except String JValue :=
  let st := scanAll data
  let e := st.1.eof
  match e.1.err with
  | some msg => Except.error msg
  | none => Except.ok ((st.2.feed e.2 (Char.ofNat 32)).done.getD JValue.null)

/-! ## Errors -/

/-- Modelled from the spec: the errors registered by the module.  They are
declared in the package's errors file, which is not among the sources; the spec
names one kind, `InvalidMetadata`. -/
inductive RegisteredError where
  | ErrInvalidMetadata
  deriving DecidableEq, Repr

export RegisteredError (ErrInvalidMetadata)

/-- The type error of the decoder: the kind of JSON value met, the struct and
field being decoded (both empty at the top level) and the Go type of the target. -/
structure UnmarshalTypeError where
  Value : String
  Struct : String
  Field : String
  GoType : String
  deriving DecidableEq, Repr

/-- The method `Error` of `UnmarshalTypeError`. -/
def UnmarshalTypeError.Error (e : UnmarshalTypeError) : String :=
  if e.Struct ≠ "" ∨ e.Field ≠ "" then
    "json: cannot unmarshal " ++ e.Value ++ " into Go struct field " ++ e.Struct ++ "." ++
      e.Field ++ " of type " ++ e.GoType
  else "json: cannot unmarshal " ++ e.Value ++ " into Go value of type " ++ e.GoType

/-- The errors `json.Unmarshal` returns here: a `SyntaxError` with the
scanner's message, or the first `UnmarshalTypeError` saved while decoding. -/
inductive JsonError where
  | syntaxError (msg : String)
  | unmarshalTypeError (e : UnmarshalTypeError)
  deriving DecidableEq, Repr

/-- The method `Error` of the errors of `encoding/json`. -/
def JsonError.Error : JsonError → String
  | JsonError.syntaxError msg => msg
  | JsonError.unmarshalTypeError e => e.Error

/-- The values of Go's `error` that occur: an error of `encoding/json` as it
is, or a registered error wrapped with a description. -/
inductive GoError where
  | json (e : JsonError)
  | wrapped (parent : RegisteredError) (description : String)
  deriving DecidableEq, Repr

/-- The method `Wrap` of a registered error. -/
def RegisteredError.Wrap (e : RegisteredError) (description : String) : GoError :=
  GoError.wrapped e description

/-! ## The decoder of `encoding/json` (`decode.go`) for the two structs -/

/-- Case folding of one code point, as far as it matters for names made of
ASCII letters and underscores: besides the ASCII capitals only the Kelvin sign
U+212A and the long s U+017F fold to an ASCII letter. -/
def foldRune (c : Char) : Char :=
  let n := c.toNat
  if 65 ≤ n ∧ n ≤ 90 then Char.ofNat (n + 32)
  else if n = 0x212A then Char.ofNat 107
  else if n = 0x17F then Char.ofNat 115
  else c

/-- Whether a member key matches a field name under case folding. -/
def equalFold (name key : String) : Bool :=
  decide (name.data.map foldRune = key.data.map foldRune)

/-- The field a member key selects: an exact match of the name is preferred, a
match under case folding is accepted, and a key that matches no field selects
none. -/
def findField (names : List String) (key : String) : Option String :=
  match names.find? (fun n => decide (n = key)) with
  | some n => some n
  | none => names.find? (fun n => equalFold n key)

/-- The name of the kind of a JSON value in a type error; `null` never is one. -/
def JValue.kindName : JValue → String
  | JValue.null => "null"
  | JValue.bool _ => "bool"
  | JValue.num _ => "number"
  | JValue.str _ => "string"
  | JValue.arr _ => "array"
  | JValue.obj _ => "object"

/-- The method `saveError`: the first error is kept. -/
def saveError (saved : Option UnmarshalTypeError) (e : Option UnmarshalTypeError) :
    Option UnmarshalTypeError :=
  match saved with
  | some x => some x
  | none => e

/-- Decoding a value into a target of kind string holding `cur`: a string is
stored, `null` leaves the target as it is, and any other value leaves it as it is
and is a type error (an array or an object is skipped whole). -/
def storeString (struct field : String) (cur : String) (v : JValue) :
    String × Option UnmarshalTypeError :=
  match v with
  | JValue.str x => (x, none)
  | JValue.null => (cur, none)
  | other =>
    (cur, some { Value := other.kindName, Struct := struct, Field := field, GoType := "string" })

/-- The elements of an array decoded one by one into the elements of a slice
of strings; `old` is what the backing array holds at the same positions, and a
position past it starts as the empty string. -/
def storeElems (struct field : String) :
    List JValue → List String → List String × Option UnmarshalTypeError
  | [], _ => ([], none)
  | v :: vs, old =>
    let r := storeString struct field (old.headD "") v
    let rs := storeElems struct field vs old.tail
    (r.1 :: rs.1, saveError r.2 rs.2)

/-- A slice of strings: `elems` is `none` for the nil slice; `spare` is what the
backing array holds past the length of the slice. -/
structure StringSlice where
  elems : Option (List String)
  spare : List String
  deriving DecidableEq, Repr

/-- Decoding a value into a target of type `[]string`: `null` sets the nil
slice; an empty array sets a new empty slice; the elements of any other array
are decoded into the elements of the slice in place, the length being set to
their number; any other value is a type error. -/
def storeSlice (struct field : String) (cur : StringSlice) (v : JValue) :
    StringSlice × Option UnmarshalTypeError :=
  match v with
  | JValue.null => ({ elems := none, spare := [] }, none)
  | JValue.arr [] => ({ elems := some [], spare := [] }, none)
  | JValue.arr (e :: es) =>
    let old := cur.elems.getD [] ++ cur.spare
    let r := storeElems struct field (e :: es) old
    ({ elems := some r.1, spare := old.drop (e :: es).length }, r.2)
  | other =>
    (cur, some { Value := other.kindName, Struct := struct, Field := field, GoType := "[]string" })

/-- The struct `ProposalMetadata` of the source file.  `Authors` is a Go slice:
`none` is the nil slice. -/
structure ProposalMetadata where
  Title : String
  Authors : Option (List String)
  Summary : String
  Details : String
  ProposalForumURL : String
  VoteOptionContext : String
  deriving DecidableEq, Repr

/-- The struct `VoteMetadata` of the source file. -/
structure VoteMetadata where
  Justification : String
  deriving DecidableEq, Repr

/-- The zero value a `var metadata ProposalMetadata` starts with. -/
def ProposalMetadata.zero : ProposalMetadata :=
  { Title := "", Authors := none, Summary := "", Details := "", ProposalForumURL := "",
    VoteOptionContext := "" }

/-- The zero value a `var metadata VoteMetadata` starts with. -/
def VoteMetadata.zero : VoteMetadata := { Justification := "" }

/-- The JSON names of the fields of `ProposalMetadata`, from its struct tags. -/
def proposalFieldNames : List String :=
  ["title", "authors", "summary", "details", "proposal_forum_url", "vote_option_context"]

/-- The JSON names of the fields of `VoteMetadata`, from its struct tag. -/
def voteFieldNames : List String := ["justification"]

/-- The decoder while it fills a `ProposalMetadata`: the struct, the backing
array of `Authors` past its length, and the saved error. -/
structure ProposalDecode where
  metadata : ProposalMetadata
  spare : List String
  savedError : Option UnmarshalTypeError
  deriving DecidableEq, Repr

/-- The decoder while it fills a `VoteMetadata`. -/
structure VoteDecode where
  metadata : VoteMetadata
  savedError : Option UnmarshalTypeError
  deriving DecidableEq, Repr

/-- The decoder before the first member: the zero struct and no saved error. -/
def ProposalDecode.init : ProposalDecode :=
  { metadata := ProposalMetadata.zero, spare := [], savedError := none }

/-- The decoder before the first member: the zero struct and no saved error. -/
def VoteDecode.init : VoteDecode := { metadata := VoteMetadata.zero, savedError := none }

/-- The method `saveError` on the decoder of a `ProposalMetadata`. -/
def ProposalDecode.save (d : ProposalDecode) (e : Option UnmarshalTypeError) : ProposalDecode :=
  { d with savedError := saveError d.savedError e }

/-- The method `saveError` on the decoder of a `VoteMetadata`. -/
def VoteDecode.save (d : VoteDecode) (e : Option UnmarshalTypeError) : VoteDecode :=
  { d with savedError := saveError d.savedError e }

/-- One member of the object decoded into `ProposalMetadata`: the key selects
a field, the value is decoded into it; a member that selects no field is
skipped. -/
def ProposalDecode.member (d : ProposalDecode) (kv : String × JValue) : ProposalDecode :=
  let m := d.metadata
  match findField proposalFieldNames kv.1 with
  | none => d
  | some f =>
    if f = "title" then
      let r := storeString "ProposalMetadata" f m.Title kv.2
      { d with metadata := { m with Title := r.1 }, savedError := saveError d.savedError r.2 }
    else if f = "authors" then
      let r := storeSlice "ProposalMetadata" f { elems := m.Authors, spare := d.spare } kv.2
      { metadata := { m with Authors := r.1.elems }, spare := r.1.spare,
        savedError := saveError d.savedError r.2 }
    else if f = "summary" then
      let r := storeString "ProposalMetadata" f m.Summary kv.2
      { d with metadata := { m with Summary := r.1 }, savedError := saveError d.savedError r.2 }
    else if f = "details" then
      let r := storeString "ProposalMetadata" f m.Details kv.2
      { d with metadata := { m with Details := r.1 }, savedError := saveError d.savedError r.2 }
    else if f = "proposal_forum_url" then
      let r := storeString "ProposalMetadata" f m.ProposalForumURL kv.2
      { d with metadata := { m with ProposalForumURL := r.1 },
               savedError := saveError d.savedError r.2 }
    else
      let r := storeString "ProposalMetadata" f m.VoteOptionContext kv.2
      { d with metadata := { m with VoteOptionContext := r.1 },
               savedError := saveError d.savedError r.2 }

/-- One member of the object decoded into `VoteMetadata`. -/
def VoteDecode.member (d : VoteDecode) (kv : String × JValue) : VoteDecode :=
  match findField voteFieldNames kv.1 with
  | none => d
  | some f =>
    let r := storeString "VoteMetadata" f d.metadata.Justification kv.2
    { metadata := { Justification := r.1 }, savedError := saveError d.savedError r.2 }

/-- The method `value` for a target of struct type named `goType`: an object
is decoded member by member, in the order of the text; `null` changes nothing;
any other value is a type error at the top level. -/
def decodeStruct {δ : Type} (goType : String) (member : δ → String × JValue → δ)
    (save : δ → Option UnmarshalTypeError → δ) (d : δ) (v : JValue) : δ :=
  match v with
  | JValue.obj ms => ms.foldl member d
  | JValue.null => d
  | other => save d (some { Value := other.kindName, Struct := "", Field := "", GoType := goType })

/-- The call `json.Unmarshal([]byte(data), &metadata)` on a zero
`ProposalMetadata`: the struct afterwards and the error.  A text that is not
valid JSON leaves the struct alone. -/
def unmarshalProposalMetadata (data : String) : ProposalMetadata × Option JsonError :=
  match parseJSON data.data with
  | Except.error msg => (ProposalMetadata.zero, some (JsonError.syntaxError msg))
  | Except.ok v =>
    let d := decodeStruct "types.ProposalMetadata" ProposalDecode.member ProposalDecode.save
      ProposalDecode.init v
    (d.metadata, d.savedError.map JsonError.unmarshalTypeError)

/-- The call `json.Unmarshal([]byte(data), &metadata)` on a zero `VoteMetadata`. -/
def unmarshalVoteMetadata (data : String) : VoteMetadata × Option JsonError :=
  match parseJSON data.data with
  | Except.error msg => (VoteMetadata.zero, some (JsonError.syntaxError msg))
  | Except.ok v =>
    let d := decodeStruct "types.VoteMetadata" VoteDecode.member VoteDecode.save
      VoteDecode.init v
    (d.metadata, d.savedError.map JsonError.unmarshalTypeError)

/-! ## The functions of `metadata.go` -/

/-- The function `UnmarshalProposalMetadata` of the source file.  The result is
the pair Go returns: the pointer (`none` for nil) and the error (`none` for
nil). -/
def UnmarshalProposalMetadata (metadataStr : String) :
    Option ProposalMetadata × Option GoError :=
  let r := unmarshalProposalMetadata metadataStr
  let metadata := r.1
  match r.2 with
  | some err => (none, some (ErrInvalidMetadata.Wrap err.Error))
  | none =>
    if metadata.Title = "" then
      (none, some (ErrInvalidMetadata.Wrap "missing field `title`"))
    else if metadata.Authors = none then
      (none, some (ErrInvalidMetadata.Wrap "missing field `authors`"))
    else if metadata.Details = "" then
      (none, some (ErrInvalidMetadata.Wrap "missing field `details`"))
    else (some metadata, none)

/-- The function `UnmarshalVoteMetadata` of the source file. -/
def UnmarshalVoteMetadata (metadataStr : String) : Option VoteMetadata × Option GoError :=
  let r := unmarshalVoteMetadata metadataStr
  match r.2 with
  | some err => (none, some (ErrInvalidMetadata.Wrap err.Error))
  | none => (some r.1, none)

/-! ## Vocabulary for the statements -/

/-- The members of a JSON value: those of an object, none for any other value. -/
def JValue.members : JValue → List (String × JValue)
  | JValue.obj ms => ms
  | _ => []

/-- The string a JSON value is, if it is one. -/
def JValue.string? : JValue → Option String
  | JValue.str x => some x
  | _ => none

/-- Whether a JSON value is a string. -/
def JValue.isString (v : JValue) : Bool := v.string?.isSome

/-- Whether a JSON value is `null`. -/
def JValue.isNull : JValue → Bool
  | JValue.null => true
  | _ => false

/-- Whether a JSON value is an object. -/
def JValue.isObject : JValue → Bool
  | JValue.obj _ => true
  | _ => false

/-- Whether a JSON value is an array. -/
def JValue.isArray : JValue → Bool
  | JValue.arr _ => true
  | _ => false

/-- Whether a JSON value is an array of strings. -/
def JValue.isStringArray : JValue → Bool
  | JValue.arr es => es.all JValue.isString
  | _ => false

/-- The strings of an array of strings. -/
def JValue.strings : JValue → List String
  | JValue.arr es => es.filterMap JValue.string?
  | _ => []

/-- The values of the members whose key is exactly `k`, in the order of the text. -/
def keyValues (k : String) (ms : List (String × JValue)) : List JValue :=
  ms.filterMap (fun kv => if kv.1 = k then some kv.2 else none)

/-- The values of the members whose key selects the field `f` among `names`
(exactly or under case folding), in the order of the text. -/
def fieldValues (names : List String) (f : String) (ms : List (String × JValue)) :
    List JValue :=
  ms.filterMap (fun kv => if findField names kv.1 = some f then some kv.2 else none)

/-- The members of an object without those whose key selects the field `f`. -/
def withoutField (names : List String) (f : String) (ms : List (String × JValue)) :
    List (String × JValue) :=
  ms.filter (fun kv => !decide (findField names kv.1 = some f))

/-- The last value of a list. -/
def lastValue : List JValue → Option JValue
  | [] => none
  | v :: vs =>
    match lastValue vs with
    | some x => some x
    | none => some v

/-- The last string among the values of a list. -/
def lastString : List JValue → Option String
  | [] => none
  | v :: vs =>
    match lastString vs with
    | some x => some x
    | none => v.string?

/-- A member is well typed for the struct with the field names `names` when
its key selects no field, or selects `authors` and its value is an array of
strings, or selects another field and its value is a string. -/
def wellTyped (names : List String) (kv : String × JValue) : Bool :=
  match findField names kv.1 with
  | none => true
  | some f => if f = "authors" then kv.2.isStringArray else kv.2.isString

/-- A member is accepted for the struct with the field names `names` when its
key selects no field, or selects `authors` and its value is `null` or an array
of strings and `null`s, or selects another field and its value is a string or
`null`. -/
def accepted (names : List String) (kv : String × JValue) : Bool :=
  match findField names kv.1 with
  | none => true
  | some f =>
    if f = "authors" then
      match kv.2 with
      | JValue.null => true
      | JValue.arr es => es.all (fun e => e.isString || e.isNull)
      | _ => false
    else kv.2.isString || kv.2.isNull

/-- One code point through the scanner alone. -/
def scanStep (sc : Scanner) (c : Char) : Scanner := (sc.run (leadByte c)).1

/-- The text of `n` arrays one inside the other: `n` opening brackets and then
`n` closing brackets. -/
def nestedArrays (n : Nat) : List Char :=
  List.replicate n (Char.ofNat 91) ++ List.replicate n (Char.ofNat 93)

/-- The text of the object whose one member `x` holds `n` arrays one inside
the other. -/
def nestedMember (n : Nat) : String :=
  String.mk ("\x7b\"x\":".data ++ nestedArrays n ++ "\x7d".data)

/-- The error text of the scanner for an opening bracket past the limit on
the depth of nesting. -/
def depthMessage : String :=
  "invalid character " ++ quoteChar 91 ++ " " ++ "exceeded max depth"

/-- The two forms of the scanner's error text. -/
def IsScannerMessage (m : String) : Prop :=
  m = "unexpected end of JSON input" ∨ ∃ q ctx, m = "invalid character " ++ q ++ " " ++ ctx

/-- One step leaves the error as it is or records an error of the scanner. -/
def ErrStep (s : Scanner) (r : Scanner × ScanOp) : Prop :=
  r.1.err = s.err ∨ ∃ q ctx, r.1.err = some ("invalid character " ++ q ++ " " ++ ctx)

/-- The error of a scanner, if any, is an error text of the scanner. -/
def ErrOK (s : Scanner) : Prop := ∀ m, s.err = some m → IsScannerMessage m

/-! ## The three checks of `UnmarshalProposalMetadata` -/

/-- The five ways through `UnmarshalProposalMetadata`: the error of
`json.Unmarshal`, the three checks in their order, and the success. -/
theorem UnmarshalProposalMetadata_cases (s : String) :
    (∃ e, (unmarshalProposalMetadata s).2 = some e ∧
        UnmarshalProposalMetadata s = (none, some (ErrInvalidMetadata.Wrap e.Error))) ∨
    ((unmarshalProposalMetadata s).2 = none ∧
      (((unmarshalProposalMetadata s).1.Title = "" ∧
          UnmarshalProposalMetadata s =
            (none, some (ErrInvalidMetadata.Wrap "missing field `title`"))) ∨
       ((unmarshalProposalMetadata s).1.Title ≠ "" ∧
          (unmarshalProposalMetadata s).1.Authors = none ∧
          UnmarshalProposalMetadata s =
            (none, some (ErrInvalidMetadata.Wrap "missing field `authors`"))) ∨
       ((unmarshalProposalMetadata s).1.Title ≠ "" ∧
          (unmarshalProposalMetadata s).1.Authors ≠ none ∧
          (unmarshalProposalMetadata s).1.Details = "" ∧
          UnmarshalProposalMetadata s =
            (none, some (ErrInvalidMetadata.Wrap "missing field `details`"))) ∨
       ((unmarshalProposalMetadata s).1.Title ≠ "" ∧
          (unmarshalProposalMetadata s).1.Authors ≠ none ∧
          (unmarshalProposalMetadata s).1.Details ≠ "" ∧
          UnmarshalProposalMetadata s = (some (unmarshalProposalMetadata s).1, none)))) := by
  cases h : (unmarshalProposalMetadata s).2 with
  | some e => exact Or.inl ⟨e, rfl, by simp [UnmarshalProposalMetadata, h]⟩
  | none =>
    refine Or.inr ⟨rfl, ?_⟩
    by_cases h1 : (unmarshalProposalMetadata s).1.Title = ""
    · exact Or.inl ⟨h1, by simp [UnmarshalProposalMetadata, h, h1]⟩
    · by_cases h2 : (unmarshalProposalMetadata s).1.Authors = none
      · exact Or.inr (Or.inl ⟨h1, h2, by simp [UnmarshalProposalMetadata, h, h1, h2]⟩)
      · by_cases h3 : (unmarshalProposalMetadata s).1.Details = ""
        · exact Or.inr (Or.inr (Or.inl
            ⟨h1, h2, h3, by simp [UnmarshalProposalMetadata, h, h1, h2, h3]⟩))
        · exact Or.inr (Or.inr (Or.inr
            ⟨h1, h2, h3, by simp [UnmarshalProposalMetadata, h, h1, h2, h3]⟩))

/-! ## Lemmas on the decoder -/

theorem storeString_fst (st f cur : String) (v : JValue) :
    (storeString st f cur v).1 = v.string?.getD cur := by
  cases v <;> rfl

theorem storeString_snd (st f cur : String) (v : JValue)
    (h : (v.isString || v.isNull) = true) : (storeString st f cur v).2 = none := by
  cases v <;> simp_all [storeString, JValue.isString, JValue.isNull, JValue.string?]

theorem saveError_none (e : Option UnmarshalTypeError) : saveError e none = e := by
  cases e <;> rfl

theorem storeElems_snd (st f : String) (es : List JValue) :
    ∀ old : List String, es.all (fun e => e.isString || e.isNull) = true →
      (storeElems st f es old).2 = none := by
  induction es with
  | nil => intro old _; rfl
  | cons e es ih =>
    intro old h
    simp only [List.all_cons, Bool.and_eq_true] at h
    simp only [storeElems]
    rw [storeString_snd st f _ e h.1, ih _ h.2]
    rfl

theorem storeElems_fst (st f : String) (es : List JValue) :
    ∀ old : List String, es.all JValue.isString = true →
      (storeElems st f es old).1 = es.filterMap JValue.string? := by
  induction es with
  | nil => intro old _; rfl
  | cons e es ih =>
    intro old h
    simp only [List.all_cons, Bool.and_eq_true] at h
    simp only [storeElems]
    rw [ih _ h.2, storeString_fst]
    cases e <;> simp_all [JValue.isString, JValue.string?]

theorem storeSlice_null (st f : String) (cur : StringSlice) :
    (storeSlice st f cur JValue.null).1.elems = none := rfl

theorem storeSlice_arr_ne_none (st f : String) (cur : StringSlice) (es : List JValue) :
    (storeSlice st f cur (JValue.arr es)).1.elems ≠ none := by
  cases es <;> simp [storeSlice]

theorem storeSlice_strings (st f : String) (cur : StringSlice) (v : JValue)
    (h : v.isStringArray = true) : (storeSlice st f cur v).1.elems = some v.strings := by
  cases v with
  | arr es =>
    cases es with
    | nil => rfl
    | cons e es =>
      simp only [JValue.isStringArray] at h
      simp only [storeSlice, JValue.strings]
      rw [storeElems_fst st f (e :: es) _ h]
  | _ => simp [JValue.isStringArray] at h

theorem storeSlice_snd (st f : String) (cur : StringSlice) (v : JValue)
    (h : (match v with
      | JValue.null => true
      | JValue.arr es => es.all (fun e => e.isString || e.isNull)
      | _ => false) = true) : (storeSlice st f cur v).2 = none := by
  cases v with
  | null => rfl
  | arr es =>
    cases es with
    | nil => rfl
    | cons e es => exact storeElems_snd st f (e :: es) _ h
  | _ => simp at h

theorem fieldValues_cons (names : List String) (f : String) (kv : String × JValue)
    (ms : List (String × JValue)) :
    fieldValues names f (kv :: ms) =
      if findField names kv.1 = some f then kv.2 :: fieldValues names f ms
      else fieldValues names f ms := by
  unfold fieldValues
  by_cases h : findField names kv.1 = some f <;> simp [List.filterMap_cons, h]

/-- A field of kind string after the members of an object: the last string
among the values given to it, or what it held before. -/
theorem foldl_stringField {δ : Type} (member : δ → String × JValue → δ) (get : δ → String)
    (names : List String) (f : String)
    (hstep : ∀ d kv, get (member d kv) =
      if findField names kv.1 = some f then kv.2.string?.getD (get d) else get d) :
    ∀ (ms : List (String × JValue)) (d : δ),
      get (ms.foldl member d) = (lastString (fieldValues names f ms)).getD (get d) := by
  intro ms
  induction ms with
  | nil => intro d; rfl
  | cons kv ms ih =>
    intro d
    rw [List.foldl_cons, ih, hstep, fieldValues_cons]
    by_cases h : findField names kv.1 = some f
    · simp only [h, if_true, lastString]
      cases lastString (fieldValues names f ms) <;> rfl
    · simp only [h, if_false]

/-- The saved error after the members of an object, all of them accepted. -/
theorem foldl_savedError {δ : Type} (member : δ → String × JValue → δ)
    (err : δ → Option UnmarshalTypeError) (names : List String)
    (hstep : ∀ d kv, accepted names kv = true → err (member d kv) = err d) :
    ∀ (ms : List (String × JValue)) (d : δ),
      (∀ kv ∈ ms, accepted names kv = true) → err (ms.foldl member d) = err d := by
  intro ms
  induction ms with
  | nil => intro d _; rfl
  | cons kv ms ih =>
    intro d h
    rw [List.foldl_cons, ih _ (fun x hx => h x (List.mem_cons_of_mem _ hx)),
      hstep d kv (h kv (List.mem_cons_self _ _))]

theorem wellTyped_accepted (names : List String) (kv : String × JValue)
    (h : wellTyped names kv = true) : accepted names kv = true := by
  unfold wellTyped at h
  unfold accepted
  cases hf : findField names kv.1 with
  | none => rfl
  | some f =>
    simp only [hf] at h ⊢
    split_ifs at h ⊢ with hA
    · cases hv : kv.2 with
      | arr es =>
        simp only [hv, JValue.isStringArray] at h ⊢
        rw [List.all_eq_true] at h ⊢
        intro x hx
        simp [h x hx]
      | _ => simp [hv, JValue.isStringArray] at h
    · simp [h]

theorem member_Title (d : ProposalDecode) (kv : String × JValue) :
    (d.member kv).metadata.Title =
      if findField proposalFieldNames kv.1 = some "title" then kv.2.string?.getD d.metadata.Title
      else d.metadata.Title := by
  unfold ProposalDecode.member
  cases h : findField proposalFieldNames kv.1 with
  | none => simp
  | some f =>
    simp only []
    split_ifs <;> simp_all [storeString_fst]

theorem member_Summary (d : ProposalDecode) (kv : String × JValue) :
    (d.member kv).metadata.Summary =
      if findField proposalFieldNames kv.1 = some "summary" then
        kv.2.string?.getD d.metadata.Summary
      else d.metadata.Summary := by
  unfold ProposalDecode.member
  cases h : findField proposalFieldNames kv.1 with
  | none => simp
  | some f =>
    simp only []
    split_ifs <;> simp_all [storeString_fst]

theorem member_Details (d : ProposalDecode) (kv : String × JValue) :
    (d.member kv).metadata.Details =
      if findField proposalFieldNames kv.1 = some "details" then
        kv.2.string?.getD d.metadata.Details
      else d.metadata.Details := by
  unfold ProposalDecode.member
  cases h : findField proposalFieldNames kv.1 with
  | none => simp
  | some f =>
    simp only []
    split_ifs <;> simp_all [storeString_fst]

theorem member_ProposalForumURL (d : ProposalDecode) (kv : String × JValue) :
    (d.member kv).metadata.ProposalForumURL =
      if findField proposalFieldNames kv.1 = some "proposal_forum_url" then
        kv.2.string?.getD d.metadata.ProposalForumURL
      else d.metadata.ProposalForumURL := by
  unfold ProposalDecode.member
  cases h : findField proposalFieldNames kv.1 with
  | none => simp
  | some f =>
    simp only []
    split_ifs <;> simp_all [storeString_fst]

theorem findField_mem (names : List String) (key f : String)
    (h : findField names key = some f) : f ∈ names := by
  unfold findField at h
  cases h1 : names.find? (fun n => decide (n = key)) with
  | some n =>
    simp only [h1, Option.some.injEq] at h
    exact h ▸ List.mem_of_find?_eq_some h1
  | none =>
    simp only [h1] at h
    exact List.mem_of_find?_eq_some h

theorem member_VoteOptionContext (d : ProposalDecode) (kv : String × JValue) :
    (d.member kv).metadata.VoteOptionContext =
      if findField proposalFieldNames kv.1 = some "vote_option_context" then
        kv.2.string?.getD d.metadata.VoteOptionContext
      else d.metadata.VoteOptionContext := by
  unfold ProposalDecode.member
  cases h : findField proposalFieldNames kv.1 with
  | none => simp
  | some f =>
    have hm := findField_mem _ _ _ h
    simp only [proposalFieldNames, List.mem_cons, List.mem_singleton, List.not_mem_nil,
      or_false] at hm
    simp only []
    split_ifs <;> simp_all [storeString_fst]

theorem member_Authors (d : ProposalDecode) (kv : String × JValue) :
    (d.member kv).metadata.Authors =
      if findField proposalFieldNames kv.1 = some "authors" then
        (storeSlice "ProposalMetadata" "authors"
          { elems := d.metadata.Authors, spare := d.spare } kv.2).1.elems
      else d.metadata.Authors := by
  unfold ProposalDecode.member
  cases h : findField proposalFieldNames kv.1 with
  | none => simp
  | some f =>
    simp only []
    split_ifs <;> simp_all

/-- The field `Authors` after the members of an object: what it held before
when no member selects it, and otherwise what decoding the value of the last
such member leaves in it. -/
theorem foldl_Authors (ms : List (String × JValue)) :
    ∀ d : ProposalDecode,
      match lastValue (fieldValues proposalFieldNames "authors" ms) with
      | none => (ms.foldl ProposalDecode.member d).metadata.Authors = d.metadata.Authors
      | some v => ∃ cur, (ms.foldl ProposalDecode.member d).metadata.Authors =
          (storeSlice "ProposalMetadata" "authors" cur v).1.elems := by
  induction ms with
  | nil => intro d; simp [fieldValues, lastValue]
  | cons kv ms ih =>
    intro d
    have h1 := ih (d.member kv)
    rw [List.foldl_cons, fieldValues_cons]
    by_cases h : findField proposalFieldNames kv.1 = some "authors"
    · simp only [h, if_true, lastValue]
      cases hl : lastValue (fieldValues proposalFieldNames "authors" ms) with
      | none =>
        simp only [hl] at h1 ⊢
        exact ⟨_, by rw [h1, member_Authors, if_pos h]⟩
      | some x =>
        simp only [hl] at h1 ⊢
        exact h1
    · simp only [h, if_false]
      cases hl : lastValue (fieldValues proposalFieldNames "authors" ms) with
      | none =>
        simp only [hl] at h1 ⊢
        rw [h1, member_Authors, if_neg h]
      | some x =>
        simp only [hl] at h1 ⊢
        exact h1

theorem proposalMember_savedError (d : ProposalDecode) (kv : String × JValue)
    (h : accepted proposalFieldNames kv = true) : (d.member kv).savedError = d.savedError := by
  unfold accepted at h
  unfold ProposalDecode.member
  cases hf : findField proposalFieldNames kv.1 with
  | none => simp
  | some f =>
    simp only [hf] at h
    simp only []
    split_ifs at h ⊢ <;>
      first
      | (rw [storeString_snd _ _ _ _ h]; exact saveError_none _)
      | (rw [storeSlice_snd _ _ _ _ h]; exact saveError_none _)
      | simp_all

theorem member_Justification (d : VoteDecode) (kv : String × JValue) :
    (d.member kv).metadata.Justification =
      if findField voteFieldNames kv.1 = some "justification" then
        kv.2.string?.getD d.metadata.Justification
      else d.metadata.Justification := by
  unfold VoteDecode.member
  cases h : findField voteFieldNames kv.1 with
  | none => simp
  | some f =>
    have hm := findField_mem _ _ _ h
    simp only [voteFieldNames, List.mem_singleton] at hm
    simp [hm, storeString_fst]

theorem voteMember_savedError (d : VoteDecode) (kv : String × JValue)
    (h : accepted voteFieldNames kv = true) : (d.member kv).savedError = d.savedError := by
  unfold accepted at h
  unfold VoteDecode.member
  cases hf : findField voteFieldNames kv.1 with
  | none => simp
  | some f =>
    have hm := findField_mem _ _ _ hf
    simp only [voteFieldNames, List.mem_singleton] at hm
    subst hm
    simp only [hf] at h
    simp only []
    rw [storeString_snd _ _ _ _ (by simpa using h)]
    exact saveError_none _

/-! ## Lemmas on `json.Unmarshal` -/

theorem unmarshalProposalMetadata_obj (s : String) (ms : List (String × JValue))
    (hp : parseJSON s.data = Except.ok (JValue.obj ms)) :
    unmarshalProposalMetadata s =
      ((ms.foldl ProposalDecode.member ProposalDecode.init).metadata,
       (ms.foldl ProposalDecode.member ProposalDecode.init).savedError.map
         JsonError.unmarshalTypeError) := by
  simp [unmarshalProposalMetadata, hp, decodeStruct]

theorem unmarshalVoteMetadata_obj (s : String) (ms : List (String × JValue))
    (hp : parseJSON s.data = Except.ok (JValue.obj ms)) :
    unmarshalVoteMetadata s =
      ((ms.foldl VoteDecode.member VoteDecode.init).metadata,
       (ms.foldl VoteDecode.member VoteDecode.init).savedError.map
         JsonError.unmarshalTypeError) := by
  simp [unmarshalVoteMetadata, hp, decodeStruct]

/-- When `json.Unmarshal` returns no error, the struct is the zero struct
after the members of the value, one by one. -/
theorem unmarshalProposalMetadata_fst (s : String) (v : JValue)
    (hp : parseJSON s.data = Except.ok v) (hacc : (unmarshalProposalMetadata s).2 = none) :
    (unmarshalProposalMetadata s).1 =
      (v.members.foldl ProposalDecode.member ProposalDecode.init).metadata := by
  cases v with
  | obj ms => rw [unmarshalProposalMetadata_obj s ms hp]; rfl
  | null => simp [unmarshalProposalMetadata, hp, decodeStruct, JValue.members]
  | _ =>
    simp [unmarshalProposalMetadata, hp, decodeStruct, ProposalDecode.save, saveError,
      ProposalDecode.init] at hacc

theorem unmarshalVoteMetadata_fst (s : String) (v : JValue)
    (hp : parseJSON s.data = Except.ok v) (hacc : (unmarshalVoteMetadata s).2 = none) :
    (unmarshalVoteMetadata s).1 =
      (v.members.foldl VoteDecode.member VoteDecode.init).metadata := by
  cases v with
  | obj ms => rw [unmarshalVoteMetadata_obj s ms hp]; rfl
  | null => simp [unmarshalVoteMetadata, hp, decodeStruct, JValue.members]
  | _ =>
    simp [unmarshalVoteMetadata, hp, decodeStruct, VoteDecode.save, saveError,
      VoteDecode.init] at hacc

theorem unmarshalProposalMetadata_Title (s : String) (v : JValue)
    (hp : parseJSON s.data = Except.ok v) (hacc : (unmarshalProposalMetadata s).2 = none) :
    (unmarshalProposalMetadata s).1.Title =
      (lastString (fieldValues proposalFieldNames "title" v.members)).getD "" := by
  rw [unmarshalProposalMetadata_fst s v hp hacc]
  exact foldl_stringField ProposalDecode.member (fun d => d.metadata.Title) proposalFieldNames
    "title" member_Title v.members ProposalDecode.init

theorem unmarshalProposalMetadata_Details (s : String) (v : JValue)
    (hp : parseJSON s.data = Except.ok v) (hacc : (unmarshalProposalMetadata s).2 = none) :
    (unmarshalProposalMetadata s).1.Details =
      (lastString (fieldValues proposalFieldNames "details" v.members)).getD "" := by
  rw [unmarshalProposalMetadata_fst s v hp hacc]
  exact foldl_stringField ProposalDecode.member (fun d => d.metadata.Details) proposalFieldNames
    "details" member_Details v.members ProposalDecode.init

theorem unmarshalProposalMetadata_Authors (s : String) (v : JValue)
    (hp : parseJSON s.data = Except.ok v) (hacc : (unmarshalProposalMetadata s).2 = none) :
    match lastValue (fieldValues proposalFieldNames "authors" v.members) with
    | none => (unmarshalProposalMetadata s).1.Authors = none
    | some x => ∃ cur, (unmarshalProposalMetadata s).1.Authors =
        (storeSlice "ProposalMetadata" "authors" cur x).1.elems := by
  rw [unmarshalProposalMetadata_fst s v hp hacc]
  exact foldl_Authors v.members ProposalDecode.init

theorem saveError_ne_none_left (a b : Option UnmarshalTypeError) (h : a ≠ none) :
    saveError a b ≠ none := by
  cases a with
  | none => exact absurd rfl h
  | some x => simp [saveError]

theorem saveError_ne_none_right (a b : Option UnmarshalTypeError) (h : b ≠ none) :
    saveError a b ≠ none := by
  cases a with
  | none => simpa [saveError] using h
  | some x => simp [saveError]

theorem storeString_snd_ne_none (st f cur : String) (v : JValue)
    (h : (v.isString || v.isNull) = false) : (storeString st f cur v).2 ≠ none := by
  cases v <;> simp_all [storeString, JValue.isString, JValue.isNull, JValue.string?]

theorem storeElems_snd_ne_none (st f : String) (es : List JValue) :
    ∀ old : List String, es.all (fun e => e.isString || e.isNull) = false →
      (storeElems st f es old).2 ≠ none := by
  induction es with
  | nil => intro old h; simp at h
  | cons e es ih =>
    intro old h
    simp only [storeElems]
    by_cases he : (e.isString || e.isNull) = true
    · have h2 : es.all (fun e => e.isString || e.isNull) = false := by
        simpa [List.all_cons, he] using h
      exact saveError_ne_none_right _ _ (ih _ h2)
    · exact saveError_ne_none_left _ _
        (storeString_snd_ne_none st f _ e (by simpa using he))

theorem storeSlice_snd_ne_none (st f : String) (cur : StringSlice) (v : JValue)
    (h : (match v with
      | JValue.null => true
      | JValue.arr es => es.all (fun e => e.isString || e.isNull)
      | _ => false) = false) : (storeSlice st f cur v).2 ≠ none := by
  cases v with
  | null => simp at h
  | arr es =>
    cases es with
    | nil => simp at h
    | cons e es => exact storeElems_snd_ne_none st f (e :: es) _ h
  | _ => simp [storeSlice]

theorem proposalMember_savedError_keep (d : ProposalDecode) (kv : String × JValue)
    (h : d.savedError ≠ none) : (d.member kv).savedError ≠ none := by
  unfold ProposalDecode.member
  cases hf : findField proposalFieldNames kv.1 with
  | none => simpa using h
  | some f =>
    simp only []
    split_ifs <;> exact saveError_ne_none_left _ _ h

theorem proposalMember_savedError_rejected (d : ProposalDecode) (kv : String × JValue)
    (h : accepted proposalFieldNames kv = false) : (d.member kv).savedError ≠ none := by
  unfold accepted at h
  unfold ProposalDecode.member
  cases hf : findField proposalFieldNames kv.1 with
  | none => simp [hf] at h
  | some f =>
    simp only [hf] at h
    simp only []
    split_ifs at h ⊢ <;>
      first
      | exact saveError_ne_none_right _ _ (storeString_snd_ne_none _ _ _ _ h)
      | exact saveError_ne_none_right _ _ (storeSlice_snd_ne_none _ _ _ _ h)
      | simp_all

theorem voteMember_savedError_keep (d : VoteDecode) (kv : String × JValue)
    (h : d.savedError ≠ none) : (d.member kv).savedError ≠ none := by
  unfold VoteDecode.member
  cases hf : findField voteFieldNames kv.1 with
  | none => simpa using h
  | some f => exact saveError_ne_none_left _ _ h

theorem voteMember_savedError_rejected (d : VoteDecode) (kv : String × JValue)
    (h : accepted voteFieldNames kv = false) : (d.member kv).savedError ≠ none := by
  unfold accepted at h
  unfold VoteDecode.member
  cases hf : findField voteFieldNames kv.1 with
  | none => simp [hf] at h
  | some f =>
    have hm := findField_mem _ _ _ hf
    simp only [voteFieldNames, List.mem_singleton] at hm
    subst hm
    simp only [hf] at h
    exact saveError_ne_none_right _ _ (storeString_snd_ne_none _ _ _ _ (by simpa using h))

/-- No saved error after the members of an object: there was none before, and
every member is accepted. -/
theorem foldl_savedError_none {δ : Type} (member : δ → String × JValue → δ)
    (err : δ → Option UnmarshalTypeError) (names : List String)
    (hkeep : ∀ d kv, err d ≠ none → err (member d kv) ≠ none)
    (hrej : ∀ d kv, accepted names kv = false → err (member d kv) ≠ none) :
    ∀ (ms : List (String × JValue)) (d : δ), err (ms.foldl member d) = none →
      err d = none ∧ ∀ kv ∈ ms, accepted names kv = true := by
  intro ms
  induction ms with
  | nil => intro d h; exact ⟨h, by simp⟩
  | cons kv ms ih =>
    intro d h
    rw [List.foldl_cons] at h
    obtain ⟨h1, h2⟩ := ih _ h
    refine ⟨?_, ?_⟩
    · by_contra hd
      exact hkeep d kv hd h1
    · intro x hx
      rcases List.mem_cons.mp hx with hx | hx
      · subst hx
        by_contra hacc
        exact hrej d x (by simpa using hacc) h1
      · exact h2 x hx

theorem lastValue_mem (vals : List JValue) (v : JValue) (h : lastValue vals = some v) :
    v ∈ vals := by
  induction vals with
  | nil => simp [lastValue] at h
  | cons a vs ih =>
    simp only [lastValue] at h
    cases hl : lastValue vs with
    | none => simp only [hl, Option.some.injEq] at h; simp [h]
    | some x =>
      simp only [hl, Option.some.injEq] at h
      exact List.mem_cons_of_mem _ (ih (by rw [hl, h]))

theorem mem_fieldValues (names : List String) (f : String) (ms : List (String × JValue))
    (v : JValue) (h : v ∈ fieldValues names f ms) :
    ∃ kv ∈ ms, findField names kv.1 = some f ∧ kv.2 = v := by
  unfold fieldValues at h
  rw [List.mem_filterMap] at h
  obtain ⟨kv, hkv, hv⟩ := h
  by_cases hf : findField names kv.1 = some f
  · simp only [hf, if_true, Option.some.injEq] at hv
    exact ⟨kv, hkv, hf, hv⟩
  · simp [hf] at hv

/-- When `json.Unmarshal` returns no error, every member of the value is
accepted. -/
theorem unmarshalProposalMetadata_accepted (s : String) (v : JValue)
    (hp : parseJSON s.data = Except.ok v) (hacc : (unmarshalProposalMetadata s).2 = none) :
    ∀ kv ∈ v.members, accepted proposalFieldNames kv = true := by
  cases v with
  | obj ms =>
    rw [unmarshalProposalMetadata_obj s ms hp] at hacc
    simp only [Option.map_eq_none'] at hacc
    exact (foldl_savedError_none ProposalDecode.member (fun d => d.savedError) proposalFieldNames
      proposalMember_savedError_keep proposalMember_savedError_rejected ms _
      hacc).2
  | _ => simp [JValue.members]

/-- When `json.Unmarshal` returns no error, a value given to `authors` is
`null` or an array. -/
theorem unmarshalProposalMetadata_authors_kind (s : String) (v x : JValue)
    (hp : parseJSON s.data = Except.ok v) (hacc : (unmarshalProposalMetadata s).2 = none)
    (hx : lastValue (fieldValues proposalFieldNames "authors" v.members) = some x) :
    x.isNull = true ∨ x.isArray = true := by
  obtain ⟨kv, hkv, hf, hv⟩ := mem_fieldValues _ _ _ _ (lastValue_mem _ _ hx)
  have h := unmarshalProposalMetadata_accepted s v hp hacc kv hkv
  unfold accepted at h
  simp only [hf, if_true, hv] at h
  cases x <;> simp_all [JValue.isNull, JValue.isArray]


/-- A text whose object has only well-typed members is accepted by the
decoder. -/
theorem unmarshalProposalMetadata_wellTyped (s : String) (ms : List (String × JValue))
    (hp : parseJSON s.data = Except.ok (JValue.obj ms))
    (hty : ms.all (wellTyped proposalFieldNames) = true) :
    (unmarshalProposalMetadata s).2 = none := by
  rw [unmarshalProposalMetadata_obj s ms hp]
  simp only [Option.map_eq_none']
  rw [List.all_eq_true] at hty
  exact foldl_savedError ProposalDecode.member (fun d => d.savedError) proposalFieldNames
    proposalMember_savedError ms ProposalDecode.init
    (fun kv hkv => wellTyped_accepted _ kv (hty kv hkv))

/-- In an object with only well-typed members the last value given to
`authors` is an array of strings. -/
theorem wellTyped_authors (names : List String) (ms : List (String × JValue)) (x : JValue)
    (hty : ms.all (wellTyped names) = true)
    (hx : lastValue (fieldValues names "authors" ms) = some x) : x.isStringArray = true := by
  obtain ⟨kv, hkv, hf, hv⟩ := mem_fieldValues _ _ _ _ (lastValue_mem _ _ hx)
  rw [List.all_eq_true] at hty
  have h := hty kv hkv
  unfold wellTyped at h
  simpa [hf, hv] using h

theorem fieldValues_withoutField_self (names : List String) (f : String)
    (ms : List (String × JValue)) : fieldValues names f (withoutField names f ms) = [] := by
  induction ms with
  | nil => rfl
  | cons kv ms ih =>
    unfold withoutField at ih ⊢
    by_cases h : findField names kv.1 = some f
    · simpa [List.filter_cons, h] using ih
    · simp only [List.filter_cons, h, decide_False, Bool.not_false, if_true]
      rw [fieldValues_cons, if_neg h]
      exact ih

theorem fieldValues_withoutField_other (names : List String) (f g : String) (hg : g ≠ f)
    (ms : List (String × JValue)) :
    fieldValues names g (withoutField names f ms) = fieldValues names g ms := by
  induction ms with
  | nil => rfl
  | cons kv ms ih =>
    unfold withoutField at ih ⊢
    by_cases h : findField names kv.1 = some f
    · have h2 : findField names kv.1 ≠ some g := by
        rw [h]
        intro hc
        exact hg (Option.some.inj hc).symm
      simp only [List.filter_cons, h, decide_True, Bool.not_true]
      rw [fieldValues_cons, if_neg h2]
      simpa using ih
    · simp only [List.filter_cons, h, decide_False, Bool.not_false, if_true]
      rw [fieldValues_cons, fieldValues_cons, ih]

theorem withoutField_all (names : List String) (f : String) (p : String × JValue → Bool)
    (ms : List (String × JValue)) (h : ms.all p = true) :
    (withoutField names f ms).all p = true := by
  rw [List.all_eq_true] at h ⊢
  intro x hx
  exact h x (List.mem_of_mem_filter hx)

theorem fieldValues_mem (names : List String) (f : String) (ms : List (String × JValue))
    (kv : String × JValue) (hkv : kv ∈ ms) (hf : findField names kv.1 = some f) :
    kv.2 ∈ fieldValues names f ms := by
  unfold fieldValues
  rw [List.mem_filterMap]
  exact ⟨kv, hkv, by simp [hf]⟩

/-- The two ways through `UnmarshalVoteMetadata`. -/
theorem UnmarshalVoteMetadata_cases (s : String) :
    (∃ e, (unmarshalVoteMetadata s).2 = some e ∧
        UnmarshalVoteMetadata s = (none, some (ErrInvalidMetadata.Wrap e.Error))) ∨
      ((unmarshalVoteMetadata s).2 = none ∧
        UnmarshalVoteMetadata s = (some (unmarshalVoteMetadata s).1, none)) := by
  cases h : (unmarshalVoteMetadata s).2 with
  | some e => exact Or.inl ⟨e, rfl, by simp [UnmarshalVoteMetadata, h]⟩
  | none => exact Or.inr ⟨rfl, by simp [UnmarshalVoteMetadata, h]⟩

/-- A text whose object has only well-typed members is accepted by the
decoder. -/
theorem unmarshalVoteMetadata_wellTyped (s : String) (ms : List (String × JValue))
    (hp : parseJSON s.data = Except.ok (JValue.obj ms))
    (hty : ms.all (wellTyped voteFieldNames) = true) :
    (unmarshalVoteMetadata s).2 = none := by
  rw [unmarshalVoteMetadata_obj s ms hp]
  simp only [Option.map_eq_none']
  rw [List.all_eq_true] at hty
  exact foldl_savedError VoteDecode.member (fun d => d.savedError) voteFieldNames
    voteMember_savedError ms VoteDecode.init
    (fun kv hkv => wellTyped_accepted _ kv (hty kv hkv))

/-! ## Lemmas on the scanner's error text -/

theorem Scanner.error_errStep (s s0 : Scanner) (c : Nat) (ctx : String) :
    ErrStep s0 (s.error c ctx) := Or.inr ⟨_, _, rfl⟩

theorem Scanner.popParseState_err (s : Scanner) : s.popParseState.err = s.err := by
  unfold Scanner.popParseState
  dsimp only
  split <;> rfl

theorem Scanner.pushParseState_errStep (s : Scanner) (c : Nat) (p : ParseState) (op : ScanOp) :
    ErrStep s (s.pushParseState c p op) := by
  unfold Scanner.pushParseState
  simp only []
  split
  · exact Or.inl rfl
  · exact Or.inr ⟨_, _, rfl⟩

theorem stateEndTop_errStep (s : Scanner) (c : Nat) : ErrStep s (stateEndTop s c) := by
  unfold stateEndTop
  split
  · exact Or.inr ⟨_, _, rfl⟩
  · exact Or.inl rfl

theorem stateEndValue_errStep (s : Scanner) (c : Nat) : ErrStep s (stateEndValue s c) := by
  unfold stateEndValue
  split
  · exact stateEndTop_errStep _ c
  · split
    · exact Or.inl rfl
    · split <;> (repeat' split) <;>
        first
        | exact Or.inl rfl
        | exact Or.inl (Scanner.popParseState_err _)
        | exact Or.inr ⟨_, _, rfl⟩

theorem stateBeginValue_errStep (s : Scanner) (c : Nat) : ErrStep s (stateBeginValue s c) := by
  unfold stateBeginValue
  repeat' split
  all_goals
    first
    | exact Or.inl rfl
    | exact Scanner.pushParseState_errStep _ c _ _
    | exact Or.inr ⟨_, _, rfl⟩

theorem stateBeginValueOrEmpty_errStep (s : Scanner) (c : Nat) :
    ErrStep s (stateBeginValueOrEmpty s c) := by
  unfold stateBeginValueOrEmpty
  repeat' split
  · exact Or.inl rfl
  · exact stateEndValue_errStep s c
  · exact stateBeginValue_errStep s c

theorem stateBeginString_errStep (s : Scanner) (c : Nat) :
    ErrStep s (stateBeginString s c) := by
  unfold stateBeginString
  repeat' split
  all_goals first | exact Or.inl rfl | exact Or.inr ⟨_, _, rfl⟩

theorem stateBeginStringOrEmpty_errStep (s : Scanner) (c : Nat) :
    ErrStep s (stateBeginStringOrEmpty s c) := by
  unfold stateBeginStringOrEmpty
  repeat' split
  · exact Or.inl rfl
  · exact stateEndValue_errStep _ c
  · exact stateBeginString_errStep s c

theorem stateInString_errStep (s : Scanner) (c : Nat) : ErrStep s (stateInString s c) := by
  unfold stateInString
  repeat' split
  all_goals first | exact Or.inl rfl | exact Or.inr ⟨_, _, rfl⟩

theorem stateInStringEsc_errStep (s : Scanner) (c : Nat) :
    ErrStep s (stateInStringEsc s c) := by
  unfold stateInStringEsc
  repeat' split
  all_goals first | exact Or.inl rfl | exact Or.inr ⟨_, _, rfl⟩

theorem stateInStringEscHex_errStep (n : StepFn) (s : Scanner) (c : Nat) :
    ErrStep s (stateInStringEscHex n s c) := by
  unfold stateInStringEscHex
  repeat' split
  all_goals first | exact Or.inl rfl | exact Or.inr ⟨_, _, rfl⟩

theorem state0_errStep (s : Scanner) (c : Nat) : ErrStep s (state0 s c) := by
  unfold state0
  repeat' split
  all_goals first | exact Or.inl rfl | exact stateEndValue_errStep s c

theorem state1_errStep (s : Scanner) (c : Nat) : ErrStep s (state1 s c) := by
  unfold state1
  repeat' split
  all_goals first | exact Or.inl rfl | exact state0_errStep s c

theorem stateNeg_errStep (s : Scanner) (c : Nat) : ErrStep s (stateNeg s c) := by
  unfold stateNeg
  repeat' split
  all_goals first | exact Or.inl rfl | exact Or.inr ⟨_, _, rfl⟩

theorem stateDot_errStep (s : Scanner) (c : Nat) : ErrStep s (stateDot s c) := by
  unfold stateDot
  repeat' split
  all_goals first | exact Or.inl rfl | exact Or.inr ⟨_, _, rfl⟩

theorem stateDot0_errStep (s : Scanner) (c : Nat) : ErrStep s (stateDot0 s c) := by
  unfold stateDot0
  repeat' split
  all_goals first | exact Or.inl rfl | exact stateEndValue_errStep s c

theorem stateESign_errStep (s : Scanner) (c : Nat) : ErrStep s (stateESign s c) := by
  unfold stateESign
  repeat' split
  all_goals first | exact Or.inl rfl | exact Or.inr ⟨_, _, rfl⟩

theorem stateE_errStep (s : Scanner) (c : Nat) : ErrStep s (stateE s c) := by
  unfold stateE
  repeat' split
  all_goals first | exact Or.inl rfl | exact stateESign_errStep s c

theorem stateE0_errStep (s : Scanner) (c : Nat) : ErrStep s (stateE0 s c) := by
  unfold stateE0
  repeat' split
  all_goals first | exact Or.inl rfl | exact stateEndValue_errStep s c

theorem stateLiteral_errStep (e : Nat) (n : StepFn) (name : String) (s : Scanner) (c : Nat) :
    ErrStep s (stateLiteral e n name s c) := by
  unfold stateLiteral
  repeat' split
  all_goals first | exact Or.inl rfl | exact Or.inr ⟨_, _, rfl⟩

theorem Scanner.run_errStep (s : Scanner) (c : Nat) : ErrStep s (s.run c) := by
  unfold Scanner.run
  split
  all_goals
    first
    | exact stateBeginValueOrEmpty_errStep s c
    | exact stateBeginValue_errStep s c
    | exact stateBeginStringOrEmpty_errStep s c
    | exact stateBeginString_errStep s c
    | exact stateEndValue_errStep s c
    | exact stateEndTop_errStep s c
    | exact stateInString_errStep s c
    | exact stateInStringEsc_errStep s c
    | exact stateInStringEscHex_errStep _ s c
    | exact stateNeg_errStep s c
    | exact state1_errStep s c
    | exact state0_errStep s c
    | exact stateDot_errStep s c
    | exact stateDot0_errStep s c
    | exact stateE_errStep s c
    | exact stateESign_errStep s c
    | exact stateE0_errStep s c
    | exact stateLiteral_errStep _ _ _ s c
    | exact Or.inl rfl

theorem ErrOK_of_errStep (s : Scanner) (r : Scanner × ScanOp) (h : ErrOK s)
    (hr : ErrStep s r) : ErrOK r.1 := by
  intro m hm
  rcases hr with hr | ⟨q, ctx, hr⟩
  · exact h m (hr ▸ hm)
  · rw [hr] at hm
    exact Or.inr ⟨q, ctx, (Option.some.inj hm).symm⟩

theorem scanAll_errOK (data : List Char) :
    ∀ st : Scanner × Builder, ErrOK st.1 → ErrOK (data.foldl feedChar st).1 := by
  induction data with
  | nil => intro st h; exact h
  | cons c cs ih =>
    intro st h
    rw [List.foldl_cons]
    exact ih _ (ErrOK_of_errStep st.1 _ h (Scanner.run_errStep st.1 (leadByte c)))

theorem Scanner.eof_errOK (s : Scanner) (h : ErrOK s) : ErrOK s.eof.1 := by
  unfold Scanner.eof
  split
  · exact h
  · split
    · exact h
    · have h1 := ErrOK_of_errStep s _ h (Scanner.run_errStep s 32)
      simp only []
      split
      · exact h1
      · split
        · intro m hm
          exact Or.inl (Option.some.inj hm).symm
        · exact h1

/-- The error text of `checkValid` is an error text of the scanner. -/
theorem checkValid_message (data : List Char) (msg : String)
    (h : checkValid data = some msg) : IsScannerMessage msg :=
  Scanner.eof_errOK _ (scanAll_errOK data _ (fun _ hm => by simp [Scanner.reset] at hm)) msg h

theorem head_append (a b : String) (c : Char) (h : a.data.head? = some c) :
    (a ++ b).data.head? = some c := by
  rw [String.data_append]
  cases ha : a.data with
  | nil => rw [ha] at h; simp at h
  | cons x xs => rw [ha] at h; simpa using h

/-- An error text of the scanner begins with `u` or `i`. -/
theorem IsScannerMessage.head (m : String) (h : IsScannerMessage m) :
    m.data.head? = some (Char.ofNat 117) ∨ m.data.head? = some (Char.ofNat 105) := by
  rcases h with h | ⟨q, ctx, h⟩
  · exact Or.inl (h ▸ rfl)
  · refine Or.inr (h ▸ ?_)
    exact head_append _ _ _ (head_append _ _ _ (head_append _ _ _ rfl))

/-- An error text of the scanner is none of the messages of the three checks. -/
theorem IsScannerMessage.ne_missing (m : String) (h : IsScannerMessage m) :
    m ≠ "missing field `title`" ∧ m ≠ "missing field `authors`" ∧
      m ≠ "missing field `details`" := by
  have hh := IsScannerMessage.head m h
  refine ⟨?_, ?_, ?_⟩ <;>
  · intro hm
    rw [hm] at hh
    rcases hh with hh | hh <;> exact absurd hh (by decide)

theorem parseJSON_of_checkValid (data : List Char) (msg : String)
    (h : checkValid data = some msg) : parseJSON data = Except.error msg := by
  unfold checkValid at h
  unfold parseJSON
  simp only [h]

/-! ## The claims -/

set_option maxRecDepth 100000


/-- C1, as stated, fails: the object has no member named `title` (its key is
`Title`), the decoder accepts the text, and `UnmarshalProposalMetadata`
succeeds with the title `T`, since the decoder matches keys to field names
under case folding. -/
theorem missing_title_counterexample :
    parseJSON "\x7b\"Title\":\"T\",\"authors\":[],\"details\":\"D\"\x7d".data =
        Except.ok (JValue.obj
          [("Title", JValue.str "T"), ("authors", JValue.arr []), ("details", JValue.str "D")]) ∧
      keyValues "title"
        [("Title", JValue.str "T"), ("authors", JValue.arr []), ("details", JValue.str "D")] = [] ∧
      (unmarshalProposalMetadata "\x7b\"Title\":\"T\",\"authors\":[],\"details\":\"D\"\x7d").2 =
        none ∧
      UnmarshalProposalMetadata "\x7b\"Title\":\"T\",\"authors\":[],\"details\":\"D\"\x7d" =
        (some { Title := "T", Authors := some [], Summary := "", Details := "D",
                ProposalForumURL := "", VoteOptionContext := "" }, none) := by
  refine ⟨rfl, rfl, ?_, ?_⟩ <;> decide

/-- C1, amended: for every input text the decoder accepts in which no member
whose key matches `title`, exactly or under case folding, holds a string, or
the last such member that holds a string holds the empty string,
`UnmarshalProposalMetadata` fails with `ErrInvalidMetadata` wrapping exactly
the message for the missing field `title`, whatever the other members are. -/
theorem UnmarshalProposalMetadata_missing_title (s : String) (v : JValue)
    (hp : parseJSON s.data = Except.ok v) (hacc : (unmarshalProposalMetadata s).2 = none)
    (ht : lastString (fieldValues proposalFieldNames "title" v.members) = none ∨
      lastString (fieldValues proposalFieldNames "title" v.members) = some "") :
    UnmarshalProposalMetadata s =
      (none, some (ErrInvalidMetadata.Wrap "missing field `title`")) := by
  have h := unmarshalProposalMetadata_Title s v hp hacc
  have h0 : (unmarshalProposalMetadata s).1.Title = "" := by
    rcases ht with ht | ht <;> rw [h, ht] <;> rfl
  simp [UnmarshalProposalMetadata, hacc, h0]

/-- The theorem above at the empty object, and at an object whose only string for
`title` is empty. -/
theorem UnmarshalProposalMetadata_missing_title_witness :
    (unmarshalProposalMetadata "\x7b\x7d").2 = none ∧
    UnmarshalProposalMetadata "\x7b\x7d" =
      (none, some (ErrInvalidMetadata.Wrap "missing field `title`")) ∧
    UnmarshalProposalMetadata "\x7b\"TITLE\":\"\",\"title\":null,\"authors\":[\"A\"]\x7d" =
      (none, some (ErrInvalidMetadata.Wrap "missing field `title`")) :=
  ⟨by decide,
   UnmarshalProposalMetadata_missing_title "\x7b\x7d" (JValue.obj []) rfl (by decide)
     (Or.inl rfl),
   UnmarshalProposalMetadata_missing_title
     "\x7b\"TITLE\":\"\",\"title\":null,\"authors\":[\"A\"]\x7d"
     (JValue.obj [("TITLE", JValue.str ""), ("title", JValue.null),
       ("authors", JValue.arr [JValue.str "A"])]) rfl (by decide) (Or.inr rfl)⟩

/-- C2, as stated, fails: the object has a non-empty `title` and no member
named `authors` (its key is `Authors`), the decoder accepts the text, and
`UnmarshalProposalMetadata` succeeds. -/
theorem missing_authors_counterexample :
    parseJSON "\x7b\"title\":\"T\",\"Authors\":[],\"details\":\"D\"\x7d".data =
        Except.ok (JValue.obj
          [("title", JValue.str "T"), ("Authors", JValue.arr []), ("details", JValue.str "D")]) ∧
      keyValues "authors"
        [("title", JValue.str "T"), ("Authors", JValue.arr []), ("details", JValue.str "D")] = [] ∧
      (unmarshalProposalMetadata "\x7b\"title\":\"T\",\"Authors\":[],\"details\":\"D\"\x7d").2 =
        none ∧
      UnmarshalProposalMetadata "\x7b\"title\":\"T\",\"Authors\":[],\"details\":\"D\"\x7d" =
        (some { Title := "T", Authors := some [], Summary := "", Details := "D",
                ProposalForumURL := "", VoteOptionContext := "" }, none) := by
  refine ⟨rfl, rfl, ?_, ?_⟩ <;> decide

/-- C2, amended: for every input text the decoder accepts in which the last
string held by a member whose key matches `title`, exactly or under case
folding, is not empty, and in which no member has a key that matches `authors`,
exactly or under case folding, or the last such member holds `null`,
`UnmarshalProposalMetadata` fails with `ErrInvalidMetadata` wrapping exactly
the message for the missing field `authors`, whether or not `details` is
missing too. -/
theorem UnmarshalProposalMetadata_missing_authors (s : String) (v : JValue)
    (hp : parseJSON s.data = Except.ok v) (hacc : (unmarshalProposalMetadata s).2 = none)
    (ht : ∃ t, lastString (fieldValues proposalFieldNames "title" v.members) = some t ∧ t ≠ "")
    (ha : lastValue (fieldValues proposalFieldNames "authors" v.members) = none ∨
      lastValue (fieldValues proposalFieldNames "authors" v.members) = some JValue.null) :
    UnmarshalProposalMetadata s =
      (none, some (ErrInvalidMetadata.Wrap "missing field `authors`")) := by
  obtain ⟨t, ht1, ht2⟩ := ht
  have h1 : (unmarshalProposalMetadata s).1.Title ≠ "" := by
    rw [unmarshalProposalMetadata_Title s v hp hacc, ht1]
    exact ht2
  have h2 : (unmarshalProposalMetadata s).1.Authors = none := by
    have h := unmarshalProposalMetadata_Authors s v hp hacc
    rcases ha with ha | ha
    · rw [ha] at h
      exact h
    · rw [ha] at h
      obtain ⟨cur, hc⟩ := h
      rw [hc]
      rfl
  simp [UnmarshalProposalMetadata, hacc, h1, h2]

/-- The theorem above at an object without `authors`, and at one whose last
`authors` is `null`. -/
theorem UnmarshalProposalMetadata_missing_authors_witness :
    UnmarshalProposalMetadata "\x7b\"title\":\"T\"\x7d" =
      (none, some (ErrInvalidMetadata.Wrap "missing field `authors`")) ∧
    UnmarshalProposalMetadata "\x7b\"title\":\"T\",\"authors\":[],\"AUTHORS\":null\x7d" =
      (none, some (ErrInvalidMetadata.Wrap "missing field `authors`")) :=
  ⟨UnmarshalProposalMetadata_missing_authors "\x7b\"title\":\"T\"\x7d"
     (JValue.obj [("title", JValue.str "T")]) rfl (by decide) ⟨"T", rfl, by decide⟩
     (Or.inl rfl),
   UnmarshalProposalMetadata_missing_authors
     "\x7b\"title\":\"T\",\"authors\":[],\"AUTHORS\":null\x7d"
     (JValue.obj [("title", JValue.str "T"), ("authors", JValue.arr []),
       ("AUTHORS", JValue.null)]) rfl (by decide) ⟨"T", rfl, by decide⟩ (Or.inr rfl)⟩

/-- C3, as stated, fails: the object has a non-empty `title`, a present
`authors` and no member named `details` (its key is `Details`), the decoder
accepts the text, and `UnmarshalProposalMetadata` succeeds. -/
theorem missing_details_counterexample :
    parseJSON "\x7b\"title\":\"T\",\"authors\":[],\"Details\":\"D\"\x7d".data =
        Except.ok (JValue.obj
          [("title", JValue.str "T"), ("authors", JValue.arr []), ("Details", JValue.str "D")]) ∧
      keyValues "details"
        [("title", JValue.str "T"), ("authors", JValue.arr []), ("Details", JValue.str "D")] = [] ∧
      (unmarshalProposalMetadata "\x7b\"title\":\"T\",\"authors\":[],\"Details\":\"D\"\x7d").2 =
        none ∧
      UnmarshalProposalMetadata "\x7b\"title\":\"T\",\"authors\":[],\"Details\":\"D\"\x7d" =
        (some { Title := "T", Authors := some [], Summary := "", Details := "D",
                ProposalForumURL := "", VoteOptionContext := "" }, none) := by
  refine ⟨rfl, rfl, ?_, ?_⟩ <;> decide

/-- C3, amended: for every input text the decoder accepts in which the last
string held by a member whose key matches `title`, exactly or under case
folding, is not empty, the last member whose key matches `authors` is there and
does not hold `null`, and no member whose key matches `details` holds a string
or the last that does holds the empty string, `UnmarshalProposalMetadata`
fails with `ErrInvalidMetadata` wrapping exactly the message for the missing
field `details`. -/
theorem UnmarshalProposalMetadata_missing_details (s : String) (v : JValue)
    (hp : parseJSON s.data = Except.ok v) (hacc : (unmarshalProposalMetadata s).2 = none)
    (ht : ∃ t, lastString (fieldValues proposalFieldNames "title" v.members) = some t ∧ t ≠ "")
    (ha : ∃ x, lastValue (fieldValues proposalFieldNames "authors" v.members) = some x ∧
      x.isNull = false)
    (hd : lastString (fieldValues proposalFieldNames "details" v.members) = none ∨
      lastString (fieldValues proposalFieldNames "details" v.members) = some "") :
    UnmarshalProposalMetadata s =
      (none, some (ErrInvalidMetadata.Wrap "missing field `details`")) := by
  obtain ⟨t, ht1, ht2⟩ := ht
  obtain ⟨x, hx1, hx2⟩ := ha
  have h1 : (unmarshalProposalMetadata s).1.Title ≠ "" := by
    rw [unmarshalProposalMetadata_Title s v hp hacc, ht1]
    exact ht2
  have h2 : (unmarshalProposalMetadata s).1.Authors ≠ none := by
    have h := unmarshalProposalMetadata_Authors s v hp hacc
    rw [hx1] at h
    obtain ⟨cur, hc⟩ := h
    rw [hc]
    rcases unmarshalProposalMetadata_authors_kind s v x hp hacc hx1 with hk | hk
    · rw [hk] at hx2
      exact absurd hx2 (by decide)
    · cases x with
      | arr es => exact storeSlice_arr_ne_none _ _ _ _
      | _ => simp [JValue.isArray] at hk
  have h3 : (unmarshalProposalMetadata s).1.Details = "" := by
    rw [unmarshalProposalMetadata_Details s v hp hacc]
    rcases hd with hd | hd <;> rw [hd] <;> rfl
  simp [UnmarshalProposalMetadata, hacc, h1, h2, h3]

/-- The theorem above at an object without `details`, and at one whose only string
for `details` is empty. -/
theorem UnmarshalProposalMetadata_missing_details_witness :
    UnmarshalProposalMetadata "\x7b\"title\":\"T\",\"authors\":[]\x7d" =
      (none, some (ErrInvalidMetadata.Wrap "missing field `details`")) ∧
    UnmarshalProposalMetadata
        "\x7b\"title\":\"T\",\"authors\":[\"A\"],\"details\":\"\",\"DETAILS\":null\x7d" =
      (none, some (ErrInvalidMetadata.Wrap "missing field `details`")) :=
  ⟨UnmarshalProposalMetadata_missing_details "\x7b\"title\":\"T\",\"authors\":[]\x7d"
     (JValue.obj [("title", JValue.str "T"), ("authors", JValue.arr [])]) rfl (by decide)
     ⟨"T", rfl, by decide⟩ ⟨JValue.arr [], rfl, rfl⟩ (Or.inl rfl),
   UnmarshalProposalMetadata_missing_details
     "\x7b\"title\":\"T\",\"authors\":[\"A\"],\"details\":\"\",\"DETAILS\":null\x7d"
     (JValue.obj [("title", JValue.str "T"), ("authors", JValue.arr [JValue.str "A"]),
       ("details", JValue.str ""), ("DETAILS", JValue.null)]) rfl (by decide)
     ⟨"T", rfl, by decide⟩ ⟨JValue.arr [JValue.str "A"], rfl, rfl⟩ (Or.inr rfl)⟩

/-- C4, as stated, fails: the object has a non-empty `title`, a non-empty
`details` and a present `authors`, and `UnmarshalProposalMetadata` fails,
because the optional field `summary` holds a number. -/
theorem success_counterexample :
    parseJSON "\x7b\"title\":\"T\",\"authors\":[\"A\"],\"details\":\"D\",\"summary\":5\x7d".data =
        Except.ok (JValue.obj
          [("title", JValue.str "T"), ("authors", JValue.arr [JValue.str "A"]),
           ("details", JValue.str "D"), ("summary", JValue.num "5")]) ∧
      UnmarshalProposalMetadata
          "\x7b\"title\":\"T\",\"authors\":[\"A\"],\"details\":\"D\",\"summary\":5\x7d" =
        (none, some (ErrInvalidMetadata.Wrap
          "json: cannot unmarshal number into Go struct field ProposalMetadata.summary of type string")) := by
  exact ⟨rfl, rfl⟩

/-- C4, amended: for every valid JSON object in which every member whose key
matches a declared field name, exactly or under case folding, holds a value of
the type of the field (a string, and an array of strings for `authors`), in
which a member matches `title` and the last such holds a non-empty string,
likewise for `details`, and in which a member matches `authors`,
`UnmarshalProposalMetadata` succeeds and every field of the result is the
value of the last member that matches it, a field that no member matches being
empty. -/
theorem UnmarshalProposalMetadata_success (s : String) (ms : List (String × JValue))
    (hp : parseJSON s.data = Except.ok (JValue.obj ms))
    (hty : ms.all (wellTyped proposalFieldNames) = true)
    (ht : ∃ t, lastString (fieldValues proposalFieldNames "title" ms) = some t ∧ t ≠ "")
    (ha : ∃ x, lastValue (fieldValues proposalFieldNames "authors" ms) = some x)
    (hd : ∃ t, lastString (fieldValues proposalFieldNames "details" ms) = some t ∧ t ≠ "") :
    UnmarshalProposalMetadata s =
      (some
        { Title := (lastString (fieldValues proposalFieldNames "title" ms)).getD "",
          Authors := (lastValue (fieldValues proposalFieldNames "authors" ms)).map JValue.strings,
          Summary := (lastString (fieldValues proposalFieldNames "summary" ms)).getD "",
          Details := (lastString (fieldValues proposalFieldNames "details" ms)).getD "",
          ProposalForumURL :=
            (lastString (fieldValues proposalFieldNames "proposal_forum_url" ms)).getD "",
          VoteOptionContext :=
            (lastString (fieldValues proposalFieldNames "vote_option_context" ms)).getD "" },
       none) := by
  have hacc := unmarshalProposalMetadata_wellTyped s ms hp hty
  have hfst := unmarshalProposalMetadata_fst s _ hp hacc
  simp only [JValue.members] at hfst
  obtain ⟨t, ht1, ht2⟩ := ht
  obtain ⟨x, hx⟩ := ha
  obtain ⟨u, hd1, hd2⟩ := hd
  have hA : (unmarshalProposalMetadata s).1.Authors = some x.strings := by
    have h := unmarshalProposalMetadata_Authors s _ hp hacc
    simp only [JValue.members] at h
    rw [hx] at h
    obtain ⟨cur, hc⟩ := h
    rw [hc]
    exact storeSlice_strings _ _ _ _ (wellTyped_authors _ ms x hty hx)
  have hm : (unmarshalProposalMetadata s).1 =
      { Title := (lastString (fieldValues proposalFieldNames "title" ms)).getD "",
        Authors := (lastValue (fieldValues proposalFieldNames "authors" ms)).map JValue.strings,
        Summary := (lastString (fieldValues proposalFieldNames "summary" ms)).getD "",
        Details := (lastString (fieldValues proposalFieldNames "details" ms)).getD "",
        ProposalForumURL :=
          (lastString (fieldValues proposalFieldNames "proposal_forum_url" ms)).getD "",
        VoteOptionContext :=
          (lastString (fieldValues proposalFieldNames "vote_option_context" ms)).getD "" } := by
    have e1 := foldl_stringField ProposalDecode.member (fun d => d.metadata.Title)
      proposalFieldNames "title" member_Title ms ProposalDecode.init
    have e2 := foldl_stringField ProposalDecode.member (fun d => d.metadata.Summary)
      proposalFieldNames "summary" member_Summary ms ProposalDecode.init
    have e3 := foldl_stringField ProposalDecode.member (fun d => d.metadata.Details)
      proposalFieldNames "details" member_Details ms ProposalDecode.init
    have e4 := foldl_stringField ProposalDecode.member (fun d => d.metadata.ProposalForumURL)
      proposalFieldNames "proposal_forum_url" member_ProposalForumURL ms ProposalDecode.init
    have e5 := foldl_stringField ProposalDecode.member (fun d => d.metadata.VoteOptionContext)
      proposalFieldNames "vote_option_context" member_VoteOptionContext ms ProposalDecode.init
    simp only [← hfst] at e1 e2 e3 e4 e5
    rw [hx]
    rcases hu : (unmarshalProposalMetadata s).1 with ⟨a, b, c, d, e, f⟩
    rw [hu] at e1 e2 e3 e4 e5 hA
    simp only [ProposalDecode.init, ProposalMetadata.zero] at e1 e2 e3 e4 e5
    simp only at hA
    simp only [ProposalMetadata.mk.injEq, Option.map_some']
    exact ⟨e1, hA, e2, e3, e4, e5⟩
  have h1 : (unmarshalProposalMetadata s).1.Title ≠ "" := by
    rw [hm]
    simp only [ht1, Option.getD_some]
    exact ht2
  have h2 : (unmarshalProposalMetadata s).1.Authors ≠ none := by
    rw [hA]
    simp
  have h3 : (unmarshalProposalMetadata s).1.Details ≠ "" := by
    rw [hm]
    simp only [hd1, Option.getD_some]
    exact hd2
  have hfin : UnmarshalProposalMetadata s = (some (unmarshalProposalMetadata s).1, none) := by
    simp [UnmarshalProposalMetadata, hacc, h1, h2, h3]
  rw [hfin, hm]

/-- The theorem above at the example of the specification: title `T`, authors
`A`, details `D`, and the optional fields empty. -/
theorem UnmarshalProposalMetadata_success_witness :
    UnmarshalProposalMetadata "\x7b\"title\":\"T\",\"authors\":[\"A\"],\"details\":\"D\"\x7d" =
      (some { Title := "T", Authors := some ["A"], Summary := "", Details := "D",
              ProposalForumURL := "", VoteOptionContext := "" }, none) :=
  UnmarshalProposalMetadata_success
    "\x7b\"title\":\"T\",\"authors\":[\"A\"],\"details\":\"D\"\x7d"
    [("title", JValue.str "T"), ("authors", JValue.arr [JValue.str "A"]),
      ("details", JValue.str "D")] rfl (by decide) ⟨"T", rfl, by decide⟩
    ⟨JValue.arr [JValue.str "A"], rfl⟩ ⟨"D", rfl, by decide⟩

/-- C5, as stated, fails: the object has non-empty strings for `title` and
`details` and an empty array for `authors`, and `UnmarshalProposalMetadata`
fails, because the optional field `summary` holds a number. -/
theorem empty_authors_counterexample :
    parseJSON "\x7b\"title\":\"T\",\"details\":\"D\",\"authors\":[],\"summary\":0\x7d".data =
        Except.ok (JValue.obj
          [("title", JValue.str "T"), ("details", JValue.str "D"), ("authors", JValue.arr []),
           ("summary", JValue.num "0")]) ∧
      UnmarshalProposalMetadata
          "\x7b\"title\":\"T\",\"details\":\"D\",\"authors\":[],\"summary\":0\x7d" =
        (none, some (ErrInvalidMetadata.Wrap
          "json: cannot unmarshal number into Go struct field ProposalMetadata.summary of type string")) :=
  ⟨rfl, rfl⟩

/-- C5, amended: for every JSON object in which every member whose key
matches a declared field name, exactly or under case folding, holds a value of
the type of the field, in which the last members that match `title` and
`details` hold non-empty strings and the last member that matches `authors`
holds the empty array, `UnmarshalProposalMetadata` succeeds and returns a
record whose `Authors` is the empty list, not nil; and on the same object
without the members whose key matches `authors` it fails, with the message for
the missing field `authors`. -/
theorem UnmarshalProposalMetadata_empty_authors (s s' : String) (ms : List (String × JValue))
    (hp : parseJSON s.data = Except.ok (JValue.obj ms))
    (hp' : parseJSON s'.data =
      Except.ok (JValue.obj (withoutField proposalFieldNames "authors" ms)))
    (hty : ms.all (wellTyped proposalFieldNames) = true)
    (ht : ∃ t, lastString (fieldValues proposalFieldNames "title" ms) = some t ∧ t ≠ "")
    (ha : lastValue (fieldValues proposalFieldNames "authors" ms) = some (JValue.arr []))
    (hd : ∃ t, lastString (fieldValues proposalFieldNames "details" ms) = some t ∧ t ≠ "") :
    (∃ m, UnmarshalProposalMetadata s = (some m, none) ∧ m.Authors = some []) ∧
      UnmarshalProposalMetadata s' =
        (none, some (ErrInvalidMetadata.Wrap "missing field `authors`")) := by
  obtain ⟨t, ht1, ht2⟩ := ht
  obtain ⟨u, hd1, hd2⟩ := hd
  constructor
  · have hacc := unmarshalProposalMetadata_wellTyped s ms hp hty
    have h1 : (unmarshalProposalMetadata s).1.Title ≠ "" := by
      rw [unmarshalProposalMetadata_Title s _ hp hacc]
      simp only [JValue.members, ht1, Option.getD_some]
      exact ht2
    have h2 : (unmarshalProposalMetadata s).1.Authors = some [] := by
      have h := unmarshalProposalMetadata_Authors s _ hp hacc
      simp only [JValue.members] at h
      rw [ha] at h
      obtain ⟨cur, hc⟩ := h
      rw [hc]
      rfl
    have h3 : (unmarshalProposalMetadata s).1.Details ≠ "" := by
      rw [unmarshalProposalMetadata_Details s _ hp hacc]
      simp only [JValue.members, hd1, Option.getD_some]
      exact hd2
    exact ⟨(unmarshalProposalMetadata s).1,
      by simp [UnmarshalProposalMetadata, hacc, h1, h2, h3], h2⟩
  · have hacc := unmarshalProposalMetadata_wellTyped s' _ hp'
      (withoutField_all _ _ _ ms hty)
    have h1 : (unmarshalProposalMetadata s').1.Title ≠ "" := by
      rw [unmarshalProposalMetadata_Title s' _ hp' hacc]
      simp only [JValue.members]
      rw [fieldValues_withoutField_other _ _ _ (by decide), ht1]
      exact ht2
    have h2 : (unmarshalProposalMetadata s').1.Authors = none := by
      have h := unmarshalProposalMetadata_Authors s' _ hp' hacc
      simp only [JValue.members] at h
      rw [fieldValues_withoutField_self] at h
      exact h
    simp [UnmarshalProposalMetadata, hacc, h1, h2]

/-- The theorem above at an object with `authors: []` and at the same object
without `authors`. -/
theorem UnmarshalProposalMetadata_empty_authors_witness :
    (∃ m, UnmarshalProposalMetadata "\x7b\"title\":\"T\",\"authors\":[],\"details\":\"D\"\x7d" =
        (some m, none) ∧ m.Authors = some []) ∧
      UnmarshalProposalMetadata "\x7b\"title\":\"T\",\"details\":\"D\"\x7d" =
        (none, some (ErrInvalidMetadata.Wrap "missing field `authors`")) :=
  UnmarshalProposalMetadata_empty_authors
    "\x7b\"title\":\"T\",\"authors\":[],\"details\":\"D\"\x7d"
    "\x7b\"title\":\"T\",\"details\":\"D\"\x7d"
    [("title", JValue.str "T"), ("authors", JValue.arr []), ("details", JValue.str "D")]
    rfl rfl (by decide) ⟨"T", rfl, by decide⟩ rfl ⟨"D", rfl, by decide⟩

/-- C7, as stated, fails: the text is a valid JSON object, and
`UnmarshalVoteMetadata` fails, because `justification` holds a number. -/
theorem vote_object_counterexample :
    parseJSON "\x7b\"justification\":1\x7d".data =
        Except.ok (JValue.obj [("justification", JValue.num "1")]) ∧
      UnmarshalVoteMetadata "\x7b\"justification\":1\x7d" =
        (none, some (ErrInvalidMetadata.Wrap
          "json: cannot unmarshal number into Go struct field VoteMetadata.justification of type string")) :=
  ⟨rfl, rfl⟩

/-- C7, amended: for every input text that is a valid JSON object,
`UnmarshalVoteMetadata` succeeds exactly when every member whose key matches
`justification`, exactly or under case folding, holds a string or `null`; in
particular it succeeds on the empty object. -/
theorem UnmarshalVoteMetadata_succeeds_iff (s : String) (ms : List (String × JValue))
    (hp : parseJSON s.data = Except.ok (JValue.obj ms)) :
    (∃ m, UnmarshalVoteMetadata s = (some m, none)) ↔
      ∀ x ∈ fieldValues voteFieldNames "justification" ms,
        x.isString = true ∨ x.isNull = true := by
  constructor
  · rintro ⟨m, hm⟩ x hx
    have hacc : (unmarshalVoteMetadata s).2 = none := by
      rcases UnmarshalVoteMetadata_cases s with ⟨e, _, h2⟩ | ⟨h1, _⟩
      · rw [h2] at hm
        simp at hm
      · exact h1
    rw [unmarshalVoteMetadata_obj s ms hp] at hacc
    simp only [Option.map_eq_none'] at hacc
    have hall := (foldl_savedError_none VoteDecode.member (fun d => d.savedError) voteFieldNames
      voteMember_savedError_keep voteMember_savedError_rejected ms _ hacc).2
    obtain ⟨kv, hkv, hf, hv⟩ := mem_fieldValues _ _ _ _ hx
    have h := hall kv hkv
    unfold accepted at h
    simp only [hf, hv] at h
    simpa using h
  · intro h
    have hacc : (unmarshalVoteMetadata s).2 = none := by
      rw [unmarshalVoteMetadata_obj s ms hp]
      simp only [Option.map_eq_none']
      refine foldl_savedError VoteDecode.member (fun d => d.savedError) voteFieldNames
        voteMember_savedError ms VoteDecode.init ?_
      intro kv hkv
      unfold accepted
      cases hf : findField voteFieldNames kv.1 with
      | none => rfl
      | some f =>
        have hm := findField_mem _ _ _ hf
        simp only [voteFieldNames, List.mem_singleton] at hm
        subst hm
        have hx := h kv.2 (fieldValues_mem _ _ ms kv hkv hf)
        simpa using hx
    exact ⟨(unmarshalVoteMetadata s).1, by simp [UnmarshalVoteMetadata, hacc]⟩

/-- The theorem above at the empty object, and at an object whose `justification`
is `null`. -/
theorem UnmarshalVoteMetadata_succeeds_iff_witness :
    (∃ m, UnmarshalVoteMetadata "\x7b\x7d" = (some m, none)) ∧
      (∃ m, UnmarshalVoteMetadata "\x7b\"justification\":null,\"other\":[1]\x7d" =
        (some m, none)) :=
  ⟨(UnmarshalVoteMetadata_succeeds_iff "\x7b\x7d" [] rfl).mpr (by simp [fieldValues]),
   (UnmarshalVoteMetadata_succeeds_iff "\x7b\"justification\":null,\"other\":[1]\x7d"
      [("justification", JValue.null), ("other", JValue.arr [JValue.num "1"])] rfl).mpr
      (by
        intro x hx
        have h : fieldValues voteFieldNames "justification"
            [("justification", JValue.null), ("other", JValue.arr [JValue.num "1"])] =
            [JValue.null] := rfl
        rw [h, List.mem_singleton] at hx
        exact Or.inr (hx ▸ rfl))⟩

/-- C8, as stated, fails: the object has no member named `justification` (its
key is `Justification`), and `UnmarshalVoteMetadata` returns the justification
`x`, not the empty one, since the decoder matches keys to field names under
case folding. -/
theorem vote_justification_counterexample :
    parseJSON "\x7b\"Justification\":\"x\"\x7d".data =
        Except.ok (JValue.obj [("Justification", JValue.str "x")]) ∧
      keyValues "justification" [("Justification", JValue.str "x")] = [] ∧
      UnmarshalVoteMetadata "\x7b\"Justification\":\"x\"\x7d" =
        (some { Justification := "x" }, none) :=
  ⟨rfl, rfl, rfl⟩

/-- C8, amended: for every JSON object in which every member whose key
matches `justification`, exactly or under case folding, holds a string,
`UnmarshalVoteMetadata` succeeds and returns a `VoteMetadata` whose
`Justification` is the string of the last such member, and the empty string
when there is none; in particular the empty object gives the empty
justification. -/
theorem UnmarshalVoteMetadata_justification (s : String) (ms : List (String × JValue))
    (hp : parseJSON s.data = Except.ok (JValue.obj ms))
    (hty : ms.all (wellTyped voteFieldNames) = true) :
    UnmarshalVoteMetadata s =
      (some { Justification :=
        (lastString (fieldValues voteFieldNames "justification" ms)).getD "" }, none) := by
  have hacc := unmarshalVoteMetadata_wellTyped s ms hp hty
  have hfst := unmarshalVoteMetadata_fst s _ hp hacc
  simp only [JValue.members] at hfst
  have e1 := foldl_stringField VoteDecode.member (fun d => d.metadata.Justification)
    voteFieldNames "justification" member_Justification ms VoteDecode.init
  simp only [← hfst] at e1
  have hm : (unmarshalVoteMetadata s).1 =
      { Justification :=
        (lastString (fieldValues voteFieldNames "justification" ms)).getD "" } := by
    rcases hu : (unmarshalVoteMetadata s).1 with ⟨a⟩
    rw [hu] at e1
    simp only [VoteMetadata.mk.injEq]
    exact e1
  simp [UnmarshalVoteMetadata, hacc, hm]

/-- The theorem above at the empty object, and at an object that gives
`justification` twice. -/
theorem UnmarshalVoteMetadata_justification_witness :
    UnmarshalVoteMetadata "\x7b\x7d" = (some { Justification := "" }, none) ∧
      UnmarshalVoteMetadata "\x7b\"justification\":\"a\",\"JUSTIFICATION\":\"b\"\x7d" =
        (some { Justification := "b" }, none) :=
  ⟨UnmarshalVoteMetadata_justification "\x7b\x7d" [] rfl rfl,
   UnmarshalVoteMetadata_justification
     "\x7b\"justification\":\"a\",\"JUSTIFICATION\":\"b\"\x7d"
     [("justification", JValue.str "a"), ("JUSTIFICATION", JValue.str "b")] rfl rfl⟩

/-- C9: every `ProposalMetadata` returned by a successful
`UnmarshalProposalMetadata` has a non-empty `Title`, an `Authors` that is not
nil, and a non-empty `Details`. -/
theorem UnmarshalProposalMetadata_required (s : String) (m : ProposalMetadata)
    (h : (UnmarshalProposalMetadata s).1 = some m) :
    m.Title ≠ "" ∧ m.Authors ≠ none ∧ m.Details ≠ "" := by
  rcases UnmarshalProposalMetadata_cases s with
    ⟨e, _, h2⟩ | ⟨_, ⟨_, h2⟩ | ⟨_, _, h2⟩ | ⟨_, _, _, h2⟩ | ⟨h1, h2, h3, h4⟩⟩
  · rw [h2] at h; simp at h
  · rw [h2] at h; simp at h
  · rw [h2] at h; simp at h
  · rw [h2] at h; simp at h
  · rw [h4] at h
    simp only [Option.some.injEq] at h
    subst h
    exact ⟨h1, h2, h3⟩

/-- The theorem above at the example of the specification. -/
theorem UnmarshalProposalMetadata_required_witness :
    (UnmarshalProposalMetadata
        "\x7b\"title\":\"T\",\"authors\":[\"A\"],\"details\":\"D\"\x7d").1 =
      some { Title := "T", Authors := some ["A"], Summary := "", Details := "D",
             ProposalForumURL := "", VoteOptionContext := "" } ∧
    ("T" ≠ "" ∧ some ["A"] ≠ (none : Option (List String)) ∧ "D" ≠ "") :=
  ⟨by decide,
   UnmarshalProposalMetadata_required
     "\x7b\"title\":\"T\",\"authors\":[\"A\"],\"details\":\"D\"\x7d"
     { Title := "T", Authors := some ["A"], Summary := "", Details := "D",
       ProposalForumURL := "", VoteOptionContext := "" } (by decide)⟩

/-- C10: for every input text each of the two functions returns either no
value together with an error, which is `ErrInvalidMetadata` wrapping a message,
or a value together with no error, and never both or neither. -/
theorem Unmarshal_value_or_error (s : String) :
    ((∃ msg, UnmarshalProposalMetadata s = (none, some (ErrInvalidMetadata.Wrap msg))) ∨
        (∃ m, UnmarshalProposalMetadata s = (some m, none))) ∧
      ((∃ msg, UnmarshalVoteMetadata s = (none, some (ErrInvalidMetadata.Wrap msg))) ∨
        (∃ m, UnmarshalVoteMetadata s = (some m, none))) ∧
      ((UnmarshalProposalMetadata s).1 = none ↔ (UnmarshalProposalMetadata s).2 ≠ none) ∧
      ((UnmarshalVoteMetadata s).1 = none ↔ (UnmarshalVoteMetadata s).2 ≠ none) := by
  have hP : (∃ msg, UnmarshalProposalMetadata s = (none, some (ErrInvalidMetadata.Wrap msg))) ∨
      (∃ m, UnmarshalProposalMetadata s = (some m, none)) := by
    rcases UnmarshalProposalMetadata_cases s with
      ⟨e, _, h2⟩ | ⟨_, ⟨_, h2⟩ | ⟨_, _, h2⟩ | ⟨_, _, _, h2⟩ | ⟨_, _, _, h2⟩⟩
    · exact Or.inl ⟨_, h2⟩
    · exact Or.inl ⟨_, h2⟩
    · exact Or.inl ⟨_, h2⟩
    · exact Or.inl ⟨_, h2⟩
    · exact Or.inr ⟨_, h2⟩
  have hV : (∃ msg, UnmarshalVoteMetadata s = (none, some (ErrInvalidMetadata.Wrap msg))) ∨
      (∃ m, UnmarshalVoteMetadata s = (some m, none)) := by
    rcases UnmarshalVoteMetadata_cases s with ⟨e, _, h2⟩ | ⟨_, h2⟩
    · exact Or.inl ⟨_, h2⟩
    · exact Or.inr ⟨_, h2⟩
  refine ⟨hP, hV, ?_, ?_⟩
  · rcases hP with ⟨msg, h⟩ | ⟨m, h⟩ <;> simp [h]
  · rcases hV with ⟨msg, h⟩ | ⟨m, h⟩ <;> simp [h]

/-- C6: for every input text that is not valid JSON, both functions fail with
`ErrInvalidMetadata` wrapping the error text of the JSON scanner, and that text
is none of the three messages for a missing field. -/
theorem Unmarshal_invalid_json (s : String) (msg : String)
    (h : checkValid s.data = some msg) :
    UnmarshalProposalMetadata s = (none, some (ErrInvalidMetadata.Wrap msg)) ∧
      UnmarshalVoteMetadata s = (none, some (ErrInvalidMetadata.Wrap msg)) ∧
      msg ≠ "missing field `title`" ∧ msg ≠ "missing field `authors`" ∧
      msg ≠ "missing field `details`" := by
  have hp := parseJSON_of_checkValid s.data msg h
  refine ⟨?_, ?_, IsScannerMessage.ne_missing msg (checkValid_message s.data msg h)⟩
  · simp [UnmarshalProposalMetadata, unmarshalProposalMetadata, hp, JsonError.Error]
  · simp [UnmarshalVoteMetadata, unmarshalVoteMetadata, hp, JsonError.Error]

/-- The theorem above at the text of one opening brace and at the empty text. -/
theorem Unmarshal_invalid_json_witness :
    (checkValid "\x7b".data = some "unexpected end of JSON input" ∧
      UnmarshalProposalMetadata "\x7b" =
        (none, some (ErrInvalidMetadata.Wrap "unexpected end of JSON input")) ∧
      UnmarshalVoteMetadata "\x7b" =
        (none, some (ErrInvalidMetadata.Wrap "unexpected end of JSON input"))) ∧
    (checkValid "".data = some "unexpected end of JSON input" ∧
      UnmarshalProposalMetadata "" =
        (none, some (ErrInvalidMetadata.Wrap "unexpected end of JSON input")) ∧
      UnmarshalVoteMetadata "" =
        (none, some (ErrInvalidMetadata.Wrap "unexpected end of JSON input"))) :=
  ⟨⟨rfl, (Unmarshal_invalid_json "\x7b" "unexpected end of JSON input" rfl).1,
     (Unmarshal_invalid_json "\x7b" "unexpected end of JSON input" rfl).2.1⟩,
   ⟨rfl, (Unmarshal_invalid_json "" "unexpected end of JSON input" rfl).1,
     (Unmarshal_invalid_json "" "unexpected end of JSON input" rfl).2.1⟩⟩

/-! ## Lemmas on the matching of keys -/

theorem foldRune_toLower (c : Char) : foldRune c.toLower = foldRune c := by
  unfold Char.toLower
  by_cases h : c.toNat ≥ 65 ∧ c.toNat ≤ 90
  · simp only [h, and_self, if_true]
    obtain ⟨h1, h2⟩ := h
    have hc : foldRune c = Char.ofNat (c.toNat + 32) := by
      unfold foldRune
      simp only []
      rw [if_pos ⟨h1, h2⟩]
    rw [hc]
    generalize c.toNat = n at h1 h2
    interval_cases n <;> rfl
  · simp only [h, if_false]

theorem map_foldRune_toLower (cs : List Char) :
    (cs.map Char.toLower).map foldRune = cs.map foldRune := by
  induction cs with
  | nil => rfl
  | cons c cs ih => simp only [List.map_cons, foldRune_toLower, ih]

/-- The declared field names are their own case folding. -/
theorem fieldNames_folded (n : String) (h : n ∈ proposalFieldNames ∨ n ∈ voteFieldNames) :
    n.data.map foldRune = n.data := by
  simp only [proposalFieldNames, voteFieldNames, List.mem_cons, List.mem_singleton,
    List.not_mem_nil, or_false] at h
  rcases h with (h | h | h | h | h | h) | h <;> subst h <;> rfl

/-- A key that matches a declared field name under case folding selects that
field. -/
theorem findField_of_equalFold (names : List String)
    (hn : names = proposalFieldNames ∨ names = voteFieldNames) (f key : String)
    (hf : f ∈ names) (hk : equalFold f key = true) : findField names key = some f := by
  have hfold : ∀ n ∈ names, n.data.map foldRune = n.data := by
    intro n hmem
    rcases hn with hn | hn
    · exact fieldNames_folded n (Or.inl (hn ▸ hmem))
    · exact fieldNames_folded n (Or.inr (hn ▸ hmem))
  have huniq : ∀ n ∈ names, equalFold n key = true → n = f := by
    intro n hmem hnk
    unfold equalFold at hnk hk
    have h1 := of_decide_eq_true hnk
    have h2 := of_decide_eq_true hk
    have h3 : n.data = f.data := by
      rw [← hfold n hmem, ← hfold f hf, h1, h2]
    exact String.ext h3
  unfold findField
  cases h1 : names.find? (fun n => decide (n = key)) with
  | some n =>
    have hmem := List.mem_of_find?_eq_some h1
    have heq : n = key := by simpa using List.find?_some h1
    have : equalFold n key = true := by
      unfold equalFold
      rw [heq]
      simp
    simp only [huniq n hmem this]
  | none =>
    simp only []
    cases h2 : names.find? (fun n => equalFold n key) with
    | some n =>
      have hmem := List.mem_of_find?_eq_some h2
      have hp : equalFold n key = true := by simpa using List.find?_some h2
      rw [huniq n hmem hp]
    | none =>
      rw [List.find?_eq_none] at h2
      exact absurd hk (h2 f hf)

/-- A key that matches no declared field name under case folding selects no
field. -/
theorem findField_eq_none (names : List String) (key : String)
    (h : ∀ n ∈ names, equalFold n key = false) : findField names key = none := by
  unfold findField
  have h1 : names.find? (fun n => decide (n = key)) = none := by
    rw [List.find?_eq_none]
    intro n hmem hnk
    have heq : n = key := by simpa using hnk
    have := h n hmem
    unfold equalFold at this
    rw [heq] at this
    simp at this
  rw [h1]
  simp only []
  rw [List.find?_eq_none]
  intro n hmem
  simp [h n hmem]

/-- C11, as stated, fails: the key `Title` selects the field `title`, so the
first example succeeds with the title `T` instead of failing for a missing
`title`, and the key `JUSTIFICATION` selects `justification`, so the second
example decodes to the justification `x` instead of the empty one. -/
theorem case_sensitive_counterexample :
    UnmarshalProposalMetadata "\x7b\"Title\":\"T\",\"authors\":[],\"details\":\"D\"\x7d" =
        (some { Title := "T", Authors := some [], Summary := "", Details := "D",
                ProposalForumURL := "", VoteOptionContext := "" }, none) ∧
      UnmarshalProposalMetadata "\x7b\"Title\":\"T\",\"authors\":[],\"details\":\"D\"\x7d" ≠
        (none, some (ErrInvalidMetadata.Wrap "missing field `title`")) ∧
      UnmarshalVoteMetadata "\x7b\"JUSTIFICATION\":\"x\"\x7d" =
        (some { Justification := "x" }, none) ∧
      UnmarshalVoteMetadata "\x7b\"JUSTIFICATION\":\"x\"\x7d" ≠
        (some { Justification := "" }, none) := by
  refine ⟨?_, ?_, ?_, ?_⟩ <;> decide

/-- C11, amended: JSON field names are matched without regard to letter case:
a key that differs from a declared field name of either struct only in the
case of its letters selects that field, so the object with the key `Title`
decodes through `UnmarshalProposalMetadata` to the title `T` and succeeds, and
the object with the key `JUSTIFICATION` decodes through `UnmarshalVoteMetadata`
to the justification `x`. -/
theorem findField_ignores_case :
    (∀ (names : List String) (f key : String),
        names = proposalFieldNames ∨ names = voteFieldNames → f ∈ names →
        key.data.map Char.toLower = f.data → findField names key = some f) ∧
      UnmarshalProposalMetadata "\x7b\"Title\":\"T\",\"authors\":[],\"details\":\"D\"\x7d" =
        (some { Title := "T", Authors := some [], Summary := "", Details := "D",
                ProposalForumURL := "", VoteOptionContext := "" }, none) ∧
      UnmarshalVoteMetadata "\x7b\"JUSTIFICATION\":\"x\"\x7d" =
        (some { Justification := "x" }, none) := by
  refine ⟨?_, by decide, by decide⟩
  intro names f key hn hf hk
  refine findField_of_equalFold names hn f key hf ?_
  unfold equalFold
  rw [decide_eq_true_eq, ← map_foldRune_toLower key.data, hk]

/-- The theorem above at the keys `Title`, `DeTaIlS` and `JUSTIFICATION`. -/
theorem findField_ignores_case_witness :
    findField proposalFieldNames "Title" = some "title" ∧
      findField proposalFieldNames "DeTaIlS" = some "details" ∧
      findField voteFieldNames "JUSTIFICATION" = some "justification" :=
  ⟨findField_ignores_case.1 proposalFieldNames "title" "Title" (Or.inl rfl) (by decide)
     (by decide),
   findField_ignores_case.1 proposalFieldNames "details" "DeTaIlS" (Or.inl rfl) (by decide)
     (by decide),
   findField_ignores_case.1 voteFieldNames "justification" "JUSTIFICATION" (Or.inr rfl)
     (by decide) (by decide)⟩

/-! ## Lemmas on the limit on the depth of nesting -/

theorem scanAll_fst (data : List Char) :
    ∀ st : Scanner × Builder, (data.foldl feedChar st).1 = data.foldl scanStep st.1 := by
  induction data with
  | nil => intro st; rfl
  | cons c cs ih => intro st; rw [List.foldl_cons, List.foldl_cons, ih]; rfl

theorem checkValid_eq (data : List Char) :
    checkValid data = (data.foldl scanStep Scanner.reset).eof.1.err := by
  unfold checkValid scanAll
  rw [scanAll_fst]

/-- A scanner that has stopped with an error stays as it is. -/
theorem scanStep_error (sc : Scanner) (c : Char) (h : sc.step = StepFn.stateError) :
    scanStep sc c = sc := by
  unfold scanStep Scanner.run
  rw [h]

theorem foldl_scanStep_error (data : List Char) :
    ∀ sc : Scanner, sc.step = StepFn.stateError → data.foldl scanStep sc = sc := by
  induction data with
  | nil => intro sc _; rfl
  | cons c cs ih =>
    intro sc h
    rw [List.foldl_cons, scanStep_error sc c h]
    exact ih sc h

/-- An opening bracket where a value may begin, within the limit. -/
theorem scanStep_open (sc : Scanner)
    (h : sc.step = StepFn.stateBeginValue ∨ sc.step = StepFn.stateBeginValueOrEmpty)
    (hl : sc.parseState.length + 1 ≤ maxNestingDepth) :
    scanStep sc (Char.ofNat 91) =
      { sc with step := StepFn.stateBeginValueOrEmpty,
                parseState := ParseState.parseArrayValue :: sc.parseState } := by
  have hb : leadByte (Char.ofNat 91) = 91 := by decide
  unfold scanStep
  rw [hb]
  unfold Scanner.run
  rcases h with h | h <;> rw [h] <;>
    simp [stateBeginValueOrEmpty, stateBeginValue, isSpace, Scanner.pushParseState, hl]

/-- An opening bracket where a value may begin, past the limit. -/
theorem scanStep_open_over (sc : Scanner)
    (h : sc.step = StepFn.stateBeginValue ∨ sc.step = StepFn.stateBeginValueOrEmpty)
    (hl : ¬ sc.parseState.length + 1 ≤ maxNestingDepth) :
    (scanStep sc (Char.ofNat 91)).step = StepFn.stateError ∧
      (scanStep sc (Char.ofNat 91)).err = some depthMessage := by
  have hb : leadByte (Char.ofNat 91) = 91 := by decide
  unfold scanStep
  rw [hb]
  unfold Scanner.run
  rcases h with h | h <;> rw [h] <;>
    simp [stateBeginValueOrEmpty, stateBeginValue, isSpace, Scanner.pushParseState, hl,
      Scanner.error, depthMessage]

/-- Opening brackets within the limit: each one opens an array. -/
theorem foldl_scanStep_opens (n : Nat) :
    ∀ sc : Scanner,
      (sc.step = StepFn.stateBeginValue ∨ sc.step = StepFn.stateBeginValueOrEmpty) →
      sc.parseState.length + (n + 1) ≤ maxNestingDepth →
      (List.replicate (n + 1) (Char.ofNat 91)).foldl scanStep sc =
        { sc with step := StepFn.stateBeginValueOrEmpty,
                  parseState :=
                    List.replicate (n + 1) ParseState.parseArrayValue ++ sc.parseState } := by
  induction n with
  | zero =>
    intro sc h hl
    simp only [List.replicate_one, List.foldl_cons, List.foldl_nil, zero_add,
      List.singleton_append]
    exact scanStep_open sc h hl
  | succ n ih =>
    intro sc h hl
    rw [List.replicate_succ, List.foldl_cons, scanStep_open sc h (by omega)]
    rw [ih _ (Or.inr rfl) (by simp only [List.length_cons]; omega)]
    simp only [Scanner.mk.injEq, true_and, and_true]
    rw [List.replicate_succ' (n + 1), List.append_assoc]
    rfl

/-- Opening brackets past the limit: the scanner stops with the error of the
depth of nesting. -/
theorem foldl_scanStep_opens_over (n : Nat) :
    ∀ sc : Scanner,
      (sc.step = StepFn.stateBeginValue ∨ sc.step = StepFn.stateBeginValueOrEmpty) →
      sc.parseState.length ≤ maxNestingDepth →
      maxNestingDepth < sc.parseState.length + n →
      ((List.replicate n (Char.ofNat 91)).foldl scanStep sc).step = StepFn.stateError ∧
        ((List.replicate n (Char.ofNat 91)).foldl scanStep sc).err = some depthMessage := by
  induction n with
  | zero => intro sc _ h1 h2; omega
  | succ n ih =>
    intro sc h h1 h2
    rw [List.replicate_succ, List.foldl_cons]
    by_cases hl : sc.parseState.length + 1 ≤ maxNestingDepth
    · rw [scanStep_open sc h hl]
      exact ih _ (Or.inr rfl) (by simpa using hl) (by simp only [List.length_cons]; omega)
    · obtain ⟨e1, e2⟩ := scanStep_open_over sc h hl
      rw [foldl_scanStep_error _ _ e1]
      exact ⟨e1, e2⟩

/-- A closing bracket in an open array. -/
theorem scanStep_close (sc : Scanner) (rest : List ParseState)
    (h : sc.step = StepFn.stateBeginValueOrEmpty ∨ sc.step = StepFn.stateEndValue)
    (hp : sc.parseState = ParseState.parseArrayValue :: rest) :
    scanStep sc (Char.ofNat 93) =
      if rest.length = 0 then
        { sc with parseState := rest, step := StepFn.stateEndTop, endTop := true }
      else { sc with parseState := rest, step := StepFn.stateEndValue } := by
  have hb : leadByte (Char.ofNat 93) = 93 := by decide
  unfold scanStep
  rw [hb]
  unfold Scanner.run
  rcases h with h | h <;> rw [h] <;>
    simp [stateBeginValueOrEmpty, stateEndValue, isSpace, Scanner.popParseState, hp]

/-- Closing brackets for all the open arrays: the top-level value is
complete and there is no new error. -/
theorem foldl_scanStep_closes (n : Nat) :
    ∀ sc : Scanner,
      (sc.step = StepFn.stateBeginValueOrEmpty ∨ sc.step = StepFn.stateEndValue) →
      sc.parseState = List.replicate (n + 1) ParseState.parseArrayValue →
      ((List.replicate (n + 1) (Char.ofNat 93)).foldl scanStep sc).endTop = true ∧
        ((List.replicate (n + 1) (Char.ofNat 93)).foldl scanStep sc).err = sc.err := by
  induction n with
  | zero =>
    intro sc h hp
    simp only [zero_add, List.replicate_one] at hp
    simp only [zero_add, List.replicate_one, List.foldl_cons, List.foldl_nil]
    rw [scanStep_close sc [] h hp]
    simp
  | succ n ih =>
    intro sc h hp
    rw [List.replicate_succ] at hp
    rw [List.replicate_succ, List.foldl_cons, scanStep_close sc _ h hp]
    simp only [List.length_replicate, Nat.add_one_ne_zero, if_false]
    exact ih _ (Or.inr rfl) rfl

/-- At the end of the input a scanner past the top-level value, without an
error, reports none. -/
theorem eof_of_endTop (sc : Scanner) (h1 : sc.endTop = true) (h2 : sc.err = none) :
    sc.eof.1.err = none := by
  unfold Scanner.eof
  simp [h1, h2]

/-- At the end of the input a scanner with an error reports it. -/
theorem eof_of_err (sc : Scanner) (msg : String) (h : sc.err = some msg) :
    sc.eof.1.err = some msg := by
  unfold Scanner.eof
  simp [h]

/-- As many arrays one inside the other as the limit allows are valid JSON. -/
theorem checkValid_nestedArrays_succ (n : Nat) (h : n + 1 ≤ maxNestingDepth) :
    checkValid (nestedArrays (n + 1)) = none := by
  rw [checkValid_eq]
  unfold nestedArrays
  rw [List.foldl_append,
    foldl_scanStep_opens n Scanner.reset (Or.inl rfl) (by simpa [Scanner.reset] using h)]
  obtain ⟨h1, h2⟩ := foldl_scanStep_closes n
    { step := StepFn.stateBeginValueOrEmpty, endTop := Scanner.reset.endTop,
      parseState := List.replicate (n + 1) ParseState.parseArrayValue ++
        Scanner.reset.parseState, err := Scanner.reset.err }
    (Or.inl rfl) (List.append_nil _)
  exact eof_of_endTop _ h1 (h2.trans rfl)

theorem checkValid_nestedArrays : checkValid (nestedArrays maxNestingDepth) = none :=
  checkValid_nestedArrays_succ 9999 (by decide)

/-! ## Lemmas on members that select no field -/

theorem proposalMember_unknown (d : ProposalDecode) (kv : String × JValue)
    (h : findField proposalFieldNames kv.1 = none) : d.member kv = d := by
  unfold ProposalDecode.member
  simp only [h]

theorem voteMember_unknown (d : VoteDecode) (kv : String × JValue)
    (h : findField voteFieldNames kv.1 = none) : d.member kv = d := by
  unfold VoteDecode.member
  simp only [h]

/-- A member on which the decoder does nothing can be added anywhere. -/
theorem foldl_insert {δ : Type} (member : δ → String × JValue → δ) (kv : String × JValue)
    (h : ∀ d, member d kv = d) (ms1 ms2 : List (String × JValue)) (d : δ) :
    (ms1 ++ kv :: ms2).foldl member d = (ms1 ++ ms2).foldl member d := by
  rw [List.foldl_append, List.foldl_append, List.foldl_cons, h]

/-- An object whose member holds as many arrays one inside the other as the
limit allows is one level too deep: the scanner stops with the error of the
depth of nesting. -/
theorem checkValid_nestedMember :
    checkValid (nestedMember maxNestingDepth).data = some depthMessage := by
  rw [checkValid_eq]
  unfold nestedMember nestedArrays
  simp only [List.foldl_append]
  have h0 : List.foldl scanStep Scanner.reset "\x7b\"x\":".data =
      { step := StepFn.stateBeginValue, endTop := false,
        parseState := [ParseState.parseObjectValue], err := none } := by decide
  rw [h0]
  obtain ⟨e1, e2⟩ := foldl_scanStep_opens_over maxNestingDepth
    { step := StepFn.stateBeginValue, endTop := false,
      parseState := [ParseState.parseObjectValue], err := none }
    (Or.inl rfl) (by decide) (by simp only [List.length_singleton]; omega)
  rw [foldl_scanStep_error _ _ e1, foldl_scanStep_error _ _ e1]
  exact eof_of_err _ _ e2

/-- Both functions on a text the scanner rejects. -/
theorem Unmarshal_of_checkValid (s : String) (msg : String)
    (h : checkValid s.data = some msg) :
    UnmarshalProposalMetadata s = (none, some (ErrInvalidMetadata.Wrap msg)) ∧
      UnmarshalVoteMetadata s = (none, some (ErrInvalidMetadata.Wrap msg)) := by
  have hp := parseJSON_of_checkValid s.data msg h
  constructor
  · simp [UnmarshalProposalMetadata, unmarshalProposalMetadata, hp, JsonError.Error]
  · simp [UnmarshalVoteMetadata, unmarshalVoteMetadata, hp, JsonError.Error]

/-- C12, as stated, fails, in two ways.  First, `Title` is not one of the
declared field names, and adding the member `Title` to an object that fails for
a missing `title` makes `UnmarshalProposalMetadata` succeed, since the key
selects the field `title` under case folding.  Second, the key `x` matches no
field at all and as many arrays one inside the other as the limit on nesting
allows are valid JSON, yet adding the member `x` with that value to the empty
object turns the success of `UnmarshalVoteMetadata` into the scanner's error
for the depth of nesting, since inside the object the arrays are one level too
deep. -/
theorem unknown_field_counterexample :
    ("Title" ∉ proposalFieldNames ∧
      parseJSON "\x7b\"authors\":[],\"details\":\"D\"\x7d".data =
        Except.ok (JValue.obj [("authors", JValue.arr []), ("details", JValue.str "D")]) ∧
      parseJSON "\x7b\"authors\":[],\"details\":\"D\",\"Title\":\"T\"\x7d".data =
        Except.ok (JValue.obj [("authors", JValue.arr []), ("details", JValue.str "D"),
          ("Title", JValue.str "T")]) ∧
      UnmarshalProposalMetadata "\x7b\"authors\":[],\"details\":\"D\"\x7d" =
        (none, some (ErrInvalidMetadata.Wrap "missing field `title`")) ∧
      UnmarshalProposalMetadata "\x7b\"authors\":[],\"details\":\"D\",\"Title\":\"T\"\x7d" =
        (some { Title := "T", Authors := some [], Summary := "", Details := "D",
                ProposalForumURL := "", VoteOptionContext := "" }, none)) ∧
    ("x" ∉ voteFieldNames ∧ findField voteFieldNames "x" = none ∧
      checkValid (nestedArrays maxNestingDepth) = none ∧
      UnmarshalVoteMetadata "\x7b\x7d" = (some { Justification := "" }, none) ∧
      checkValid (nestedMember maxNestingDepth).data = some depthMessage ∧
      UnmarshalVoteMetadata (nestedMember maxNestingDepth) =
        (none, some (ErrInvalidMetadata.Wrap depthMessage))) :=
  ⟨⟨by decide, rfl, rfl, by decide, by decide⟩,
   ⟨by decide, by decide, checkValid_nestedArrays, by decide, checkValid_nestedMember,
    (Unmarshal_of_checkValid _ _ checkValid_nestedMember).2⟩⟩

/-- C12, amended: members that match no field are ignored, as long as the
text stays valid JSON: for every text of a JSON object and every text of the
same object with one more member, added at any place, that the decoder still
parses (its scanner rejects nesting deeper than 10000 levels, which a member
added around a deep value can exceed), if the key of the added member matches
none of the declared field names of the target struct, exactly or under case
folding, then `UnmarshalProposalMetadata` returns the same on both texts, value
or error, whatever JSON value the added member holds, and likewise for
`UnmarshalVoteMetadata`. -/
theorem Unmarshal_ignores_unknown (s s' : String) (ms1 ms2 : List (String × JValue))
    (k : String) (v : JValue)
    (hp : parseJSON s.data = Except.ok (JValue.obj (ms1 ++ ms2)))
    (hp' : parseJSON s'.data = Except.ok (JValue.obj (ms1 ++ (k, v) :: ms2))) :
    ((∀ n ∈ proposalFieldNames, equalFold n k = false) →
        UnmarshalProposalMetadata s' = UnmarshalProposalMetadata s) ∧
      ((∀ n ∈ voteFieldNames, equalFold n k = false) →
        UnmarshalVoteMetadata s' = UnmarshalVoteMetadata s) := by
  constructor
  · intro h
    have hk := findField_eq_none proposalFieldNames k h
    have e : unmarshalProposalMetadata s' = unmarshalProposalMetadata s := by
      rw [unmarshalProposalMetadata_obj s _ hp, unmarshalProposalMetadata_obj s' _ hp',
        foldl_insert ProposalDecode.member (k, v)
          (fun d => proposalMember_unknown d (k, v) hk)]
    unfold UnmarshalProposalMetadata
    rw [e]
  · intro h
    have hk := findField_eq_none voteFieldNames k h
    have e : unmarshalVoteMetadata s' = unmarshalVoteMetadata s := by
      rw [unmarshalVoteMetadata_obj s _ hp, unmarshalVoteMetadata_obj s' _ hp',
        foldl_insert VoteDecode.member (k, v) (fun d => voteMember_unknown d (k, v) hk)]
    unfold UnmarshalVoteMetadata
    rw [e]

/-- The theorem above at an object to which the member `note`, holding an
object of its own, is added in the middle. -/
theorem Unmarshal_ignores_unknown_witness :
    UnmarshalProposalMetadata
        "\x7b\"title\":\"T\",\"note\":\x7b\"title\":5\x7d,\"authors\":[],\"details\":\"D\"\x7d" =
      UnmarshalProposalMetadata "\x7b\"title\":\"T\",\"authors\":[],\"details\":\"D\"\x7d" ∧
    UnmarshalVoteMetadata
        "\x7b\"title\":\"T\",\"note\":\x7b\"title\":5\x7d,\"authors\":[],\"details\":\"D\"\x7d" =
      UnmarshalVoteMetadata "\x7b\"title\":\"T\",\"authors\":[],\"details\":\"D\"\x7d" :=
  ⟨(Unmarshal_ignores_unknown
      "\x7b\"title\":\"T\",\"authors\":[],\"details\":\"D\"\x7d"
      "\x7b\"title\":\"T\",\"note\":\x7b\"title\":5\x7d,\"authors\":[],\"details\":\"D\"\x7d"
      [("title", JValue.str "T")] [("authors", JValue.arr []), ("details", JValue.str "D")]
      "note" (JValue.obj [("title", JValue.num "5")]) rfl rfl).1 (by decide),
   (Unmarshal_ignores_unknown
      "\x7b\"title\":\"T\",\"authors\":[],\"details\":\"D\"\x7d"
      "\x7b\"title\":\"T\",\"note\":\x7b\"title\":5\x7d,\"authors\":[],\"details\":\"D\"\x7d"
      [("title", JValue.str "T")] [("authors", JValue.arr []), ("details", JValue.str "D")]
      "note" (JValue.obj [("title", JValue.num "5")]) rfl rfl).2 (by decide)⟩

/-! ## Lemmas on the text of a type error -/

/-- The text of a type error begins with `j`. -/
theorem UnmarshalTypeError.Error_head (e : UnmarshalTypeError) :
    e.Error.data.head? = some (Char.ofNat 106) := by
  unfold UnmarshalTypeError.Error
  split <;> repeat (first | exact rfl | apply head_append)

/-- The text of a type error is none of the messages of the three checks. -/
theorem UnmarshalTypeError.Error_ne_missing (e : UnmarshalTypeError) :
    e.Error ≠ "missing field `title`" ∧ e.Error ≠ "missing field `authors`" ∧
      e.Error ≠ "missing field `details`" := by
  have hh := UnmarshalTypeError.Error_head e
  refine ⟨?_, ?_, ?_⟩ <;>
  · intro hm
    rw [hm] at hh
    exact absurd hh (by decide)

/-- When `json.Unmarshal` returns a type error, `UnmarshalProposalMetadata`
returns it wrapped. -/
theorem UnmarshalProposalMetadata_of_typeError (s : String) (e : UnmarshalTypeError)
    (h : (unmarshalProposalMetadata s).2 = some (JsonError.unmarshalTypeError e)) :
    UnmarshalProposalMetadata s = (none, some (ErrInvalidMetadata.Wrap e.Error)) := by
  simp [UnmarshalProposalMetadata, h, JsonError.Error]

/-- C13, as stated, fails: `authors` has an element that is not a string, the
other required fields are present and non-empty, and `UnmarshalProposalMetadata`
succeeds, because the decoder accepts `null` for an element and leaves the
element empty. -/
theorem type_error_counterexample :
    parseJSON "\x7b\"title\":\"T\",\"authors\":[null],\"details\":\"D\"\x7d".data =
        Except.ok (JValue.obj [("title", JValue.str "T"),
          ("authors", JValue.arr [JValue.null]), ("details", JValue.str "D")]) ∧
      JValue.isString JValue.null = false ∧
      UnmarshalProposalMetadata "\x7b\"title\":\"T\",\"authors\":[null],\"details\":\"D\"\x7d" =
        (some { Title := "T", Authors := some [""], Summary := "", Details := "D",
                ProposalForumURL := "", VoteOptionContext := "" }, none) := by
  refine ⟨rfl, rfl, by decide⟩

/-- C13, amended: for every input text that is valid JSON and is a top-level
array, number, string or boolean, or an object in which a member whose key
matches a declared field name, exactly or under case folding, holds a value
that is neither `null` nor of the type of the field (such as a numeric `title`,
a string `authors`, or an element of `authors` that is neither a string nor
`null`), `UnmarshalProposalMetadata` fails with `ErrInvalidMetadata` wrapping
the text of the type error of the decoder, which is none of the messages for a
missing field, even when the required fields are present and non-empty. -/
theorem UnmarshalProposalMetadata_type_error (s : String) (v : JValue)
    (hp : parseJSON s.data = Except.ok v)
    (h : (v.isObject = false ∧ v.isNull = false) ∨
      ∃ kv ∈ v.members, accepted proposalFieldNames kv = false) :
    ∃ e : UnmarshalTypeError,
      (unmarshalProposalMetadata s).2 = some (JsonError.unmarshalTypeError e) ∧
      UnmarshalProposalMetadata s = (none, some (ErrInvalidMetadata.Wrap e.Error)) ∧
      e.Error ≠ "missing field `title`" ∧ e.Error ≠ "missing field `authors`" ∧
      e.Error ≠ "missing field `details`" := by
  have key : ∃ e : UnmarshalTypeError,
      (unmarshalProposalMetadata s).2 = some (JsonError.unmarshalTypeError e) := by
    rcases h with ⟨h1, h2⟩ | ⟨kv, hkv, hrej⟩
    · cases v with
      | obj ms => simp [JValue.isObject] at h1
      | null => simp [JValue.isNull] at h2
      | _ =>
        simp [unmarshalProposalMetadata, hp, decodeStruct, ProposalDecode.save, saveError,
          ProposalDecode.init]
    · cases v with
      | obj ms =>
        simp only [JValue.members] at hkv
        rw [unmarshalProposalMetadata_obj s ms hp]
        cases he : (ms.foldl ProposalDecode.member ProposalDecode.init).savedError with
        | some e => exact ⟨e, rfl⟩
        | none =>
          have hall := (foldl_savedError_none ProposalDecode.member (fun d => d.savedError)
            proposalFieldNames proposalMember_savedError_keep
            proposalMember_savedError_rejected ms _ he).2 kv hkv
          rw [hall] at hrej
          exact absurd hrej (by decide)
      | _ => simp [JValue.members] at hkv
  obtain ⟨e, he⟩ := key
  exact ⟨e, he, UnmarshalProposalMetadata_of_typeError s e he,
    UnmarshalTypeError.Error_ne_missing e⟩

/-- The theorem above at a top-level array, at an object with a numeric
`title`, and at an object whose `authors` has a numeric element. -/
theorem UnmarshalProposalMetadata_type_error_witness :
    (∃ e : UnmarshalTypeError,
      (unmarshalProposalMetadata "[]").2 = some (JsonError.unmarshalTypeError e) ∧
      UnmarshalProposalMetadata "[]" = (none, some (ErrInvalidMetadata.Wrap e.Error)) ∧
      e.Error ≠ "missing field `title`" ∧ e.Error ≠ "missing field `authors`" ∧
      e.Error ≠ "missing field `details`") ∧
    (∃ e : UnmarshalTypeError,
      (unmarshalProposalMetadata
        "\x7b\"title\":5,\"authors\":[],\"details\":\"D\"\x7d").2 =
          some (JsonError.unmarshalTypeError e) ∧
      UnmarshalProposalMetadata "\x7b\"title\":5,\"authors\":[],\"details\":\"D\"\x7d" =
        (none, some (ErrInvalidMetadata.Wrap e.Error)) ∧
      e.Error ≠ "missing field `title`" ∧ e.Error ≠ "missing field `authors`" ∧
      e.Error ≠ "missing field `details`") ∧
    (∃ e : UnmarshalTypeError,
      (unmarshalProposalMetadata
        "\x7b\"title\":\"T\",\"authors\":[\"A\",7],\"details\":\"D\"\x7d").2 =
          some (JsonError.unmarshalTypeError e) ∧
      UnmarshalProposalMetadata
          "\x7b\"title\":\"T\",\"authors\":[\"A\",7],\"details\":\"D\"\x7d" =
        (none, some (ErrInvalidMetadata.Wrap e.Error)) ∧
      e.Error ≠ "missing field `title`" ∧ e.Error ≠ "missing field `authors`" ∧
      e.Error ≠ "missing field `details`") :=
  ⟨UnmarshalProposalMetadata_type_error "[]" (JValue.arr []) rfl (Or.inl ⟨rfl, rfl⟩),
   UnmarshalProposalMetadata_type_error
     "\x7b\"title\":5,\"authors\":[],\"details\":\"D\"\x7d"
     (JValue.obj [("title", JValue.num "5"), ("authors", JValue.arr []),
       ("details", JValue.str "D")]) rfl
     (Or.inr ⟨("title", JValue.num "5"), List.mem_cons_self _ _, by decide⟩),
   UnmarshalProposalMetadata_type_error
     "\x7b\"title\":\"T\",\"authors\":[\"A\",7],\"details\":\"D\"\x7d"
     (JValue.obj [("title", JValue.str "T"),
       ("authors", JValue.arr [JValue.str "A", JValue.num "7"]),
       ("details", JValue.str "D")]) rfl
     (Or.inr ⟨("authors", JValue.arr [JValue.str "A", JValue.num "7"]),
       List.mem_cons_of_mem _ (List.mem_cons_self _ _), by decide⟩)⟩

/-- The texts the theorem above speaks of, in full, at the three inputs. -/
theorem type_error_texts :
    UnmarshalProposalMetadata "[]" =
        (none, some (ErrInvalidMetadata.Wrap
          "json: cannot unmarshal array into Go value of type types.ProposalMetadata")) ∧
      UnmarshalProposalMetadata "\x7b\"title\":5,\"authors\":[],\"details\":\"D\"\x7d" =
        (none, some (ErrInvalidMetadata.Wrap
          "json: cannot unmarshal number into Go struct field ProposalMetadata.title of type string")) ∧
      UnmarshalProposalMetadata
          "\x7b\"title\":\"T\",\"authors\":\"A\",\"details\":\"D\"\x7d" =
        (none, some (ErrInvalidMetadata.Wrap
          "json: cannot unmarshal string into Go struct field ProposalMetadata.authors of type []string")) :=
  ⟨rfl, rfl, rfl⟩

/-- C14: the three checks are all that `UnmarshalProposalMetadata` adds to the
JSON decode: for every input text the call succeeds exactly when `json.Unmarshal`
returns no error and leaves a non-empty `Title`, an `Authors` that is not nil
and a non-empty `Details`, and the record returned on success is the decoded
record, unchanged. -/
theorem UnmarshalProposalMetadata_iff (s : String) :
    ((∃ m, UnmarshalProposalMetadata s = (some m, none)) ↔
        ((unmarshalProposalMetadata s).2 = none ∧
          (unmarshalProposalMetadata s).1.Title ≠ "" ∧
          (unmarshalProposalMetadata s).1.Authors ≠ none ∧
          (unmarshalProposalMetadata s).1.Details ≠ "")) ∧
      (∀ m, (UnmarshalProposalMetadata s).1 = some m → m = (unmarshalProposalMetadata s).1) := by
  rcases UnmarshalProposalMetadata_cases s with
    ⟨e, h1, h2⟩ | ⟨h0, ⟨h1, h2⟩ | ⟨h1, h3, h2⟩ | ⟨h1, h3, h4, h2⟩ | ⟨h1, h3, h4, h2⟩⟩
  · refine ⟨⟨?_, ?_⟩, ?_⟩
    · rintro ⟨m, hm⟩
      rw [h2] at hm
      simp at hm
    · rintro ⟨h, _⟩
      rw [h1] at h
      simp at h
    · intro m hm
      rw [h2] at hm
      simp at hm
  · refine ⟨⟨?_, ?_⟩, ?_⟩
    · rintro ⟨m, hm⟩
      rw [h2] at hm
      simp at hm
    · rintro ⟨_, h, _⟩
      exact absurd h1 h
    · intro m hm
      rw [h2] at hm
      simp at hm
  · refine ⟨⟨?_, ?_⟩, ?_⟩
    · rintro ⟨m, hm⟩
      rw [h2] at hm
      simp at hm
    · rintro ⟨_, _, h, _⟩
      exact absurd h3 h
    · intro m hm
      rw [h2] at hm
      simp at hm
  · refine ⟨⟨?_, ?_⟩, ?_⟩
    · rintro ⟨m, hm⟩
      rw [h2] at hm
      simp at hm
    · rintro ⟨_, _, _, h⟩
      exact absurd h4 h
    · intro m hm
      rw [h2] at hm
      simp at hm
  · refine ⟨⟨fun _ => ⟨h0, h1, h3, h4⟩, fun _ => ⟨_, h2⟩⟩, ?_⟩
    intro m hm
    rw [h2] at hm
    exact (Option.some.inj hm).symm

/-- The theorem above at a text whose title is one blank, whose authors are
one empty string, and whose details and summary have blanks around them: the
call succeeds and returns the texts as they are. -/
theorem UnmarshalProposalMetadata_iff_witness :
    UnmarshalProposalMetadata
        "\x7b\"title\":\" \",\"authors\":[\"\"],\"details\":\" d \",\"summary\":\"\\t x \"\x7d" =
      (some { Title := " ", Authors := some [""], Summary := "\t x ", Details := " d ",
              ProposalForumURL := "", VoteOptionContext := "" }, none) ∧
    (∃ m, UnmarshalProposalMetadata
        "\x7b\"title\":\" \",\"authors\":[\"\"],\"details\":\" d \",\"summary\":\"\\t x \"\x7d" =
      (some m, none)) ∧
    ({ Title := " ", Authors := some [""], Summary := "\t x ", Details := " d ",
       ProposalForumURL := "", VoteOptionContext := "" } : ProposalMetadata) =
      (unmarshalProposalMetadata
        "\x7b\"title\":\" \",\"authors\":[\"\"],\"details\":\" d \",\"summary\":\"\\t x \"\x7d").1 :=
  ⟨by decide,
   (UnmarshalProposalMetadata_iff
      "\x7b\"title\":\" \",\"authors\":[\"\"],\"details\":\" d \",\"summary\":\"\\t x \"\x7d").1.mpr
      ⟨by decide, by decide, by decide, by decide⟩,
   (UnmarshalProposalMetadata_iff
      "\x7b\"title\":\" \",\"authors\":[\"\"],\"details\":\" d \",\"summary\":\"\\t x \"\x7d").2
      _ (by decide)⟩

/-- C15: a text whose value is the top-level literal `null` is not an object
and is no decode error: `json.Unmarshal` returns no error on it,
`UnmarshalVoteMetadata` succeeds with an empty `Justification`, and
`UnmarshalProposalMetadata` fails with the message for the missing field
`title`, the failure of a required field and not of the parse. -/
theorem Unmarshal_null (s : String) (hp : parseJSON s.data = Except.ok JValue.null) :
    (unmarshalVoteMetadata s).2 = none ∧ (unmarshalProposalMetadata s).2 = none ∧
      UnmarshalVoteMetadata s = (some { Justification := "" }, none) ∧
      UnmarshalProposalMetadata s =
        (none, some (ErrInvalidMetadata.Wrap "missing field `title`")) := by
  have hv : unmarshalVoteMetadata s = (VoteMetadata.zero, none) := by
    simp [unmarshalVoteMetadata, hp, decodeStruct, VoteDecode.init]
  have hq : unmarshalProposalMetadata s = (ProposalMetadata.zero, none) := by
    simp [unmarshalProposalMetadata, hp, decodeStruct, ProposalDecode.init]
  refine ⟨by rw [hv], by rw [hq], ?_, ?_⟩
  · simp [UnmarshalVoteMetadata, hv, VoteMetadata.zero]
  · simp [UnmarshalProposalMetadata, hq, ProposalMetadata.zero]

/-- The theorem above at the text `null`, which is valid JSON and not an
object. -/
theorem Unmarshal_null_witness :
    checkValid "null".data = none ∧ JValue.isObject JValue.null = false ∧
      UnmarshalVoteMetadata "null" = (some { Justification := "" }, none) ∧
      UnmarshalProposalMetadata "null" =
        (none, some (ErrInvalidMetadata.Wrap "missing field `title`")) :=
  ⟨rfl, rfl, (Unmarshal_null "null" rfl).2.2.1, (Unmarshal_null "null" rfl).2.2.2⟩

end MarsHub
